import Mathlib

/-!
# demoinfocs: header arithmetic, bombsite triggers and the latched parse error

A shallow embedding of the parts of `pkg/demoinfocs/parser.go` that compute
with the demo header (`FrameRate`, `FrameTime`, `TickRate`, `TickTime`,
`Progress`), test bombsite trigger boxes (`boundingBoxInformation.contains`),
latch the first parse error (`setError` / `error`), construct and close the
parser (`NewParserWithConfig`, `initMsgQueue`, `Close`) and register event
handlers, together with the snapshot queries of the `Participants` interface.

The dispatcher library, the bit reader and the implementation of the
participants view are not among the sources; their definitions say so and
state what they are modelled from.  Maps that the participants view hands out
are references into an explicit store of map objects, so that aliasing can be
expressed.

Go's `float32` and `float64` are modelled as IEEE 754 binary floating-point
data: signed zeros, non-zero finite values carried as exact rationals,
signed infinities and NaN.  Every arithmetic operation rounds the exact
result to nearest, ties to even, in the format of the operation.  Go's
`int`, `int64` and `time.Duration` are modelled as `Int`; 64-bit wrap-around
is applied where the source performs an `int64` division.
-/

namespace Demoinfocs

/-! ## IEEE 754 binary floating point -/

/-- Binary interchange format: number of fraction bits and the exponent range
of normal numbers. -/
structure Fmt where
  fracBits : ℤ
  emin : ℤ
  emax : ℤ

/-- Go `float32`. -/
def binary32 : Fmt := ⟨23, -126, 127⟩

/-- Go `float64`. -/
def binary64 : Fmt := ⟨52, -1022, 1023⟩

/-- Floating-point datum.  `num q` carries a non-zero finite value. -/
inductive Flt where
  | zero (neg : Bool)
  | num (q : ℚ)
  | inf (neg : Bool)
  | nan
  deriving DecidableEq, Repr

/-- Round a rational to the nearest integer, ties to the even neighbour. -/
def roundHalfEven (x : ℚ) : ℤ :=
  if x - ⌊x⌋ < 1 / 2 then ⌊x⌋
  else if 1 / 2 < x - ⌊x⌋ then ⌊x⌋ + 1
  else if ⌊x⌋ % 2 = 0 then ⌊x⌋ else ⌊x⌋ + 1

/-- Bit length minus one of a natural number, by halving (`fuel` bounds the
number of halvings). -/
def log2Fuel : ℕ → ℕ → ℕ
  | 0, _ => 0
  | fuel + 1, n => if n < 2 then 0 else log2Fuel fuel (n / 2) + 1

/-- Binary exponent of a positive rational: the `e` with `2 ^ e ≤ x < 2 ^ (e + 1)`. -/
def ilog2 (x : ℚ) : ℤ :=
  let e : ℤ := (log2Fuel x.num.natAbs x.num.natAbs : ℤ) - (log2Fuel x.den x.den : ℤ)
  if (2 : ℚ) ^ e ≤ x then e else e - 1

/-- Spacing of the format's grid around the positive magnitude `x`
(subnormal spacing below `2 ^ emin`). -/
def Fmt.quantum (f : Fmt) (x : ℚ) : ℚ :=
  (2 : ℚ) ^ (max (ilog2 x) f.emin - f.fracBits)

/-- Nearest grid point (ties to even) to the positive magnitude `x`, with
unbounded exponent. -/
def Fmt.roundMag (f : Fmt) (x : ℚ) : ℚ :=
  (roundHalfEven (x / f.quantum x) : ℚ) * f.quantum x

/-- Correctly rounded result of an operation whose exact value is `x`;
`zneg` is the sign given to an exact zero. -/
def Flt.round (f : Fmt) (x : ℚ) (zneg : Bool) : Flt :=
  if x = 0 then .zero zneg
  else if (2 : ℚ) ^ (f.emax + 1) ≤ f.roundMag |x| then .inf (decide (x < 0))
  else if f.roundMag |x| = 0 then .zero (decide (x < 0))
  else .num (if x < 0 then -f.roundMag |x| else f.roundMag |x|)

/-- Sign bit. -/
def Flt.isNeg : Flt → Bool
  | .zero s => s
  | .num q => decide (q < 0)
  | .inf s => s
  | .nan => false

/-- Real value of a finite datum (0 for the others). -/
def Flt.val : Flt → ℚ
  | .num q => q
  | _ => 0

/-- Conversion of an integer (`float32(n)`, `float64(n)`). -/
def Flt.ofInt (f : Fmt) (n : ℤ) : Flt := Flt.round f (n : ℚ) false

/-- Conversion of a decimal constant. -/
def Flt.ofRat (f : Fmt) (q : ℚ) : Flt := Flt.round f q false

/-- Floating-point division `a / b`. -/
def Flt.div (f : Fmt) : Flt → Flt → Flt
  | .nan, _ => .nan
  | _, .nan => .nan
  | .inf _, .inf _ => .nan
  | .inf s, b => .inf (xor s b.isNeg)
  | a, .inf t => .zero (xor a.isNeg t)
  | .zero _, .zero _ => .nan
  | .zero s, .num q => .zero (xor s (decide (q < 0)))
  | .num p, .zero t => .inf (xor (decide (p < 0)) t)
  | .num p, .num q => Flt.round f (p / q) (xor (decide (p < 0)) (decide (q < 0)))

/-- Floating-point addition `a + b`. -/
def Flt.add (f : Fmt) : Flt → Flt → Flt
  | .nan, _ => .nan
  | _, .nan => .nan
  | .inf s, .inf t => if s = t then .inf s else .nan
  | .inf s, _ => .inf s
  | _, .inf t => .inf t
  | .zero s, .zero t => .zero (s && t)
  | .zero _, .num q => Flt.round f q false
  | .num p, .zero _ => Flt.round f p false
  | .num p, .num q => Flt.round f (p + q) false

/-- Floating-point multiplication `a * b`. -/
def Flt.mul (f : Fmt) : Flt → Flt → Flt
  | .nan, _ => .nan
  | _, .nan => .nan
  | .inf _, .zero _ => .nan
  | .zero _, .inf _ => .nan
  | .inf s, b => .inf (xor s b.isNeg)
  | a, .inf t => .inf (xor a.isNeg t)
  | .zero s, b => .zero (xor s b.isNeg)
  | a, .zero t => .zero (xor a.isNeg t)
  | .num p, .num q => Flt.round f (p * q) (xor (decide (p < 0)) (decide (q < 0)))

/-- Comparison `a <= b`: false as soon as one side is NaN. -/
def Flt.le : Flt → Flt → Bool
  | .nan, _ => false
  | _, .nan => false
  | .inf true, _ => true
  | _, .inf false => true
  | .inf false, _ => false
  | _, .inf true => false
  | a, b => decide (a.val ≤ b.val)

/-- Comparison `a >= b`: false as soon as one side is NaN. -/
def Flt.ge : Flt → Flt → Bool
  | .nan, _ => false
  | _, .nan => false
  | .inf false, _ => true
  | _, .inf true => true
  | .inf true, _ => false
  | _, .inf false => false
  | a, b => decide (b.val ≤ a.val)

/-- Comparison `a == b`: NaN differs from everything, `-0 == +0`. -/
def Flt.eq : Flt → Flt → Bool
  | .nan, _ => false
  | _, .nan => false
  | .inf s, .inf t => s == t
  | .inf _, _ => false
  | _, .inf _ => false
  | a, b => decide (a.val = b.val)

/-- Comparison `a != b`. -/
def Flt.ne (a b : Flt) : Bool := !(Flt.eq a b)

/-- Comparison `a > b`: false as soon as one side is NaN. -/
def Flt.gt : Flt → Flt → Bool
  | .nan, _ => false
  | _, .nan => false
  | .inf s, .inf t => !s && t
  | .inf s, _ => !s
  | _, .inf t => t
  | a, b => decide (b.val < a.val)

/-- Two's-complement reduction to `int64`. -/
def wrap64 (x : ℤ) : ℤ := (x + 2 ^ 63) % 2 ^ 64 - 2 ^ 63

/-- Go integer division on `int64`: truncates toward zero, wraps on
`minInt64 / -1`, and panics (`none`) on a zero divisor. -/
def goDiv64 (a b : ℤ) : Option ℤ :=
  if b = 0 then none else some (wrap64 (Int.tdiv a b))

/-- Conversion `int64(x)` of a floating-point value: truncation toward zero.
The Go specification leaves the result implementation-dependent when the value
does not fit; `outOfRange` stands for what the platform yields then. -/
def Flt.toInt64 (outOfRange : Flt → ℤ) : Flt → ℤ
  | .zero _ => 0
  | .num q =>
    let t : ℤ := if 0 ≤ q then ⌊q⌋ else ⌈q⌉
    if -(2 : ℤ) ^ 63 ≤ t ∧ t < 2 ^ 63 then t else outOfRange (.num q)
  | x => outOfRange x

/-! ## `time.Duration` -/

/-- Nanoseconds in `time.Second`. -/
def Second : ℤ := 1000000000

/-- Go `Duration.Seconds`: `float64(d / Second) + float64(d % Second) / 1e9`. -/
def Seconds (d : ℤ) : Flt :=
  Flt.add binary64 (Flt.ofInt binary64 (Int.tdiv d Second))
    (Flt.div binary64 (Flt.ofInt binary64 (Int.tmod d Second)) (Flt.ofRat binary64 1000000000))

/-! ## Header -/

/-- Numeric fields of `header` (the string fields take no part in the
arithmetic). -/
structure header where
  PlaybackTime : ℤ
  PlaybackTicks : ℤ
  PlaybackFrames : ℤ
  deriving DecidableEq, Repr

/-- `header.FrameRate`. -/
def header.FrameRate (h : header) : Flt :=
  if h.PlaybackTime = 0 then .zero false
  else Flt.div binary64 (Flt.ofInt binary64 h.PlaybackFrames) (Seconds h.PlaybackTime)

/-- `header.FrameTime`; `none` stands for a run-time panic. -/
def header.FrameTime (h : header) : Option ℤ :=
  if h.PlaybackFrames = 0 then some 0
  else goDiv64 h.PlaybackTime h.PlaybackFrames

/-! ## Bombsite triggers -/

/-- Go `r3.Vector`. -/
structure Vector where
  X : Flt
  Y : Flt
  Z : Flt
  deriving DecidableEq, Repr

/-- Trigger box of a bombsite. -/
structure boundingBoxInformation where
  min : Vector
  max : Vector
  deriving DecidableEq, Repr

/-- `boundingBoxInformation.contains`. -/
def boundingBoxInformation.contains (bbi : boundingBoxInformation) (point : Vector) : Bool :=
  Flt.ge point.X bbi.min.X && Flt.le point.X bbi.max.X &&
  Flt.ge point.Y bbi.min.Y && Flt.le point.Y bbi.max.Y &&
  Flt.ge point.Z bbi.min.Z && Flt.le point.Z bbi.max.Z

/-! ## Configuration -/

/-- `DemoFormat`. -/
inductive DemoFormat where
  | DemoFormatFile
  | DemoFormatCSTVBroadcast
  deriving DecidableEq, Repr

/-- `ParserConfig`, without the net-message creators and the fallback event
list (no embedded method reads them).  The defaults are Go's zero values. -/
structure ParserConfig where
  MsgQueueBufferSize : ℤ := 0
  IgnoreErrBombsiteIndexNotFound : Bool := false
  DisableMimicSource1Events : Bool := false
  IgnorePacketEntitiesPanic : Bool := false
  Format : DemoFormat := .DemoFormatFile
  CSTVTimeout : ℤ := 0
  deriving DecidableEq, Repr

/-- `DefaultParserConfig`. -/
def DefaultParserConfig : ParserConfig :=
  { MsgQueueBufferSize := -1, CSTVTimeout := 10 * Second }

/-! ## Collaborators of the parser -/

/-- Bit reader of `internal/bitread`, whose code is not among the sources: it
is represented by what its `Close` returns (`none` is `nil`). -/
structure BitReader (Err : Type) where
  closeResult : Option Err

/-- `BitReader.Close`. -/
def BitReader.Close {Err : Type} (r : BitReader Err) : Option Err := r.closeResult

/-- Go channel `chan any`, identified by its capacity; what travels through it
belongs to the concurrent execution and is not part of the model. -/
structure Chan where
  capacity : ℤ
  deriving DecidableEq, Repr

/-- Go `make(chan any, buf)`: panics (`none`) on a negative size and on a size
the runtime cannot allocate ("makechan: size out of range").  `maxCap` is the
largest capacity the platform accepts: the runtime bounds it by
`(maxAlloc - hchanSize) / elemSize`, and the memory at hand may bound it
further.  Capacity 0 needs no buffer and is always accepted. -/
def makeChan (maxCap : ℕ) (buf : ℤ) : Option Chan :=
  if buf < 0 ∨ (maxCap : ℤ) < buf then none else some ⟨buf⟩

/-- Bound of the Go runtime on the capacity of a `chan any` on 64-bit
platforms with 48-bit heap addresses: `maxAlloc = 2 ^ 48`, `hchanSize = 96`,
16 bytes per element, so `(2 ^ 48 - 96) / 16 = 2 ^ 44 - 6`. -/
def runtimeMaxChanCap : ℕ := 17592186044410

/-- Kind of event a handler function is declared to receive: its argument type. -/
inductive EventKind where
  | any
  | kind (k : ℕ)
  deriving DecidableEq, Repr

/-- Handler function `func(<EventType>)`: the kind it receives and a tag
telling handlers apart. -/
structure Handler where
  receives : EventKind
  tag : ℕ
  deriving DecidableEq, Repr

/-- Modelled from the spec: the dispatcher of the `godispatch` library, whose
code is not among the sources.  It holds the registered handlers, each under
the identifier handed out at registration, and the queues added to it. -/
structure Dispatcher where
  handlers : List (ℕ × Handler) := []
  queues : List Chan := []
  deriving DecidableEq, Repr

/-- Modelled from the spec: `dp.NewDispatcherWithConfig`, missing from the
sources, gives a dispatcher without handlers or queues. -/
def NewDispatcherWithConfig : Dispatcher := {}

/-- Modelled from the spec: the identifier `Dispatcher.RegisterHandler` (missing
from the sources) hands out is distinct from those of all registered handlers. -/
def Dispatcher.freshIdentifier (d : Dispatcher) : ℕ :=
  (d.handlers.map Prod.fst).foldr max 0 + 1

/-- Modelled from the spec: `Dispatcher.RegisterHandler`, missing from the
sources, stores the handler and returns its identifier. -/
def Dispatcher.RegisterHandler (d : Dispatcher) (handler : Handler) : Dispatcher × ℕ :=
  ({ d with handlers := d.handlers ++ [(d.freshIdentifier, handler)] }, d.freshIdentifier)

/-- Modelled from the spec: `Dispatcher.UnregisterHandler`, missing from the
sources, removes the handler registered under the identifier. -/
def Dispatcher.UnregisterHandler (d : Dispatcher) (identifier : ℕ) : Dispatcher :=
  { d with handlers := d.handlers.filter (fun e => decide (e.1 ≠ identifier)) }

/-- Modelled from the spec: `Dispatcher.Dispatch`, missing from the sources,
invokes the handlers declared for the event's kind and those declared for the
"any" kind; the result lists the handlers invoked. -/
def Dispatcher.Dispatch (d : Dispatcher) (k : ℕ) : List Handler :=
  (d.handlers.filter
    (fun e => decide (e.2.receives = .any ∨ e.2.receives = .kind k))).map Prod.snd

/-- Modelled from the spec: `Dispatcher.AddQueues`, missing from the sources,
adds the queue to those the dispatcher consumes. -/
def Dispatcher.AddQueues (d : Dispatcher) (q : Chan) : Dispatcher :=
  { d with queues := d.queues ++ [q] }

/-- Modelled from the spec: `Dispatcher.RemoveAllQueues`, missing from the
sources, leaves the dispatcher without queues. -/
def Dispatcher.RemoveAllQueues (d : Dispatcher) : Dispatcher :=
  { d with queues := [] }

/-! ## Parser -/

/-- Fields of `parser` read or written by the embedded methods.  `Err` is the
type of non-nil Go `error` values; `none` is `nil`.  The defaults are Go's zero
values, except for the two dispatchers, which the only constructor of
`parser` always sets. -/
structure parser (Err : Type) where
  config : ParserConfig := {}
  bitReader : Option (BitReader Err) := none
  msgQueue : Option Chan := none
  msgDispatcher : Dispatcher := {}
  eventDispatcher : Dispatcher := {}
  currentFrame : ℤ := 0
  tickInterval : Flt := .zero false
  header : Option header := none
  err : Option Err := none

/-- `legacyTickRate`. -/
def legacyTickRate (h : header) : Flt :=
  if h.PlaybackTime = 0 then .zero false
  else Flt.div binary64 (Flt.ofInt binary64 h.PlaybackTicks) (Seconds h.PlaybackTime)

/-- `parser.TickRate`. -/
def parser.TickRate {Err : Type} (p : parser Err) : Flt :=
  if Flt.ne p.tickInterval (.zero false) then
    Flt.div binary64 (Flt.ofRat binary64 1) p.tickInterval
  else
    match p.header with
    | some h => legacyTickRate h
    | none => Flt.ofInt binary64 (-1)

/-- `legayTickTime`; `none` stands for a run-time panic. -/
def legayTickTime (h : header) : Option ℤ :=
  if h.PlaybackTicks = 0 then some 0
  else goDiv64 h.PlaybackTime h.PlaybackTicks

/-- `parser.TickTime`; `none` stands for a run-time panic. -/
def parser.TickTime {Err : Type} (outOfRange : Flt → ℤ) (p : parser Err) : Option ℤ :=
  if Flt.ne p.tickInterval (.zero false) then
    some (Flt.toInt64 outOfRange (Flt.mul binary32 (Flt.ofInt binary32 Second) p.tickInterval))
  else
    match p.header with
    | some h => legayTickTime h
    | none => some (-1)

/-- `parser.Progress`. -/
def parser.Progress {Err : Type} (p : parser Err) : Flt :=
  match p.header with
  | none => .zero false
  | some h =>
    if h.PlaybackFrames = 0 then .zero false
    else Flt.div binary32 (Flt.ofInt binary32 p.currentFrame) (Flt.ofInt binary32 h.PlaybackFrames)

/-- `parser.error`: the latched error. -/
def parser.error {Err : Type} (p : parser Err) : Option Err := p.err

/-- `parser.setError`. -/
def parser.setError {Err : Type} (p : parser Err) (err : Option Err) : parser Err :=
  match err with
  | none => p
  | some e =>
    match p.err with
    | some _ => p
    | none => { p with err := some e }

/-- `parser.Close`: the parser afterwards and the returned error.  `wrap`
stands for `errors.Wrap` with the message "failed to close BitReader", which
yields a non-nil error for a non-nil one. -/
def parser.Close {Err : Type} (wrap : Err → Err) (p : parser Err) : parser Err × Option Err :=
  let p1 : parser Err := { p with msgDispatcher := p.msgDispatcher.RemoveAllQueues }
  match p1.bitReader with
  | some r =>
    match r.Close with
    | some err => (p1, some (wrap err))
    | none => (p1, none)
  | none => (p1, none)

/-- `parser.initMsgQueue`; `none` stands for a run-time panic.  `maxCap` is the
largest channel capacity the platform accepts, see `makeChan`. -/
def parser.initMsgQueue {Err : Type} (maxCap : ℕ) (p : parser Err) (buf : ℤ) :
    Option (parser Err) :=
  match makeChan maxCap buf with
  | none => none
  | some q => some { p with msgQueue := some q, msgDispatcher := p.msgDispatcher.AddQueues q }

/-- `NewParserWithConfig`; `none` stands for a run-time panic.  `maxCap` is the
largest channel capacity the platform accepts, see `makeChan`;
`largeBitReader` and `smallBitReader` are the readers `bit.NewLargeBitReader`
and `bit.NewSmallBitReader` build over the demo stream, `netMessageHandlers`
the parser's own net-message handlers in the order of their registration
(they live in files that are not among the sources).  Fields that no embedded
method reads are left out. -/
def NewParserWithConfig {Err : Type} (maxCap : ℕ)
    (largeBitReader smallBitReader : BitReader Err)
    (netMessageHandlers : List Handler) (config : ParserConfig) : Option (parser Err) :=
  let p : parser Err :=
    { config := config
      bitReader :=
        some (if config.Format = DemoFormat.DemoFormatFile then largeBitReader
          else smallBitReader)
      msgDispatcher :=
        netMessageHandlers.foldl (fun d h => (d.RegisterHandler h).1) NewDispatcherWithConfig
      eventDispatcher := NewDispatcherWithConfig }
  if config.MsgQueueBufferSize ≥ 0 then p.initMsgQueue maxCap config.MsgQueueBufferSize
  else some p

/-- `parser.RegisterEventHandler`: the parser afterwards and the identifier. -/
def parser.RegisterEventHandler {Err : Type} (p : parser Err) (handler : Handler) :
    parser Err × ℕ :=
  ({ p with eventDispatcher := (p.eventDispatcher.RegisterHandler handler).1 },
    (p.eventDispatcher.RegisterHandler handler).2)

/-- `parser.UnregisterEventHandler`. -/
def parser.UnregisterEventHandler {Err : Type} (p : parser Err) (identifier : ℕ) : parser Err :=
  { p with eventDispatcher := p.eventDispatcher.UnregisterHandler identifier }

/-! ## Participants -/

/-- Modelled from the spec: the fields of `common.Player` (missing from the
sources) that the participant queries use. -/
structure Player where
  UserID : ℤ
  EntityID : ℤ
  IsConnected : Bool
  deriving DecidableEq, Repr

/-- Content of a Go `map[int]*common.Player`: its entries. -/
abbrev PlayerMap := List (ℤ × Player)

/-- Store of the map objects of the program, addressed by position.  A Go map
value is a reference into this store: two references to the same position
are aliases of one map. -/
abbrev MapStore := List PlayerMap

/-- Content of the map a reference designates. -/
def MapStore.read (s : MapStore) (ref : ℕ) : PlayerMap := (s[ref]?).getD []

/-- Mutation of the map a reference designates: its content becomes `m`. -/
def MapStore.write (s : MapStore) (ref : ℕ) (m : PlayerMap) : MapStore := s.set ref m

/-- Go `make(map[int]*common.Player)` filled with `m`: a new map object. -/
def MapStore.make (s : MapStore) (m : PlayerMap) : MapStore × ℕ := (s ++ [m], s.length)

/-- Modelled from the spec: the `participants` view (its implementation is
missing from the sources; only the `Participants` interface is there) refers
to the game state's maps of players by user-ID and by entity-ID. -/
structure participants where
  playersByUserID : ℕ
  playersByEntityID : ℕ
  deriving DecidableEq, Repr

/-- Modelled from the spec: `participants.ByUserID`, missing from the sources,
returns a new map holding the currently connected players by user-ID, never a
reference to the underlying map. -/
def participants.ByUserID (ptcp : participants) (s : MapStore) : MapStore × ℕ :=
  MapStore.make s ((MapStore.read s ptcp.playersByUserID).filter (fun e => e.2.IsConnected))

/-- Modelled from the spec: `participants.ByEntityID`, missing from the sources,
returns a new map holding the currently connected players by entity-ID, never
a reference to the underlying map. -/
def participants.ByEntityID (ptcp : participants) (s : MapStore) : MapStore × ℕ :=
  MapStore.make s ((MapStore.read s ptcp.playersByEntityID).filter (fun e => e.2.IsConnected))

/-! ## Concrete inputs used by the scenarios -/

/-- Bombsite A of the containment scenario: `min = (-100, -100, 0)`,
`max = (100, 100, 50)`. -/
def siteA : boundingBoxInformation :=
  ⟨⟨Flt.ofRat binary64 (-100), Flt.ofRat binary64 (-100), Flt.ofRat binary64 0⟩,
   ⟨Flt.ofRat binary64 100, Flt.ofRat binary64 100, Flt.ofRat binary64 50⟩⟩

/-- Box whose `min.X` exceeds its `max.X`. -/
def invertedBox : boundingBoxInformation :=
  ⟨⟨Flt.ofRat binary64 1, Flt.ofRat binary64 0, Flt.ofRat binary64 0⟩,
   ⟨Flt.ofRat binary64 0, Flt.ofRat binary64 0, Flt.ofRat binary64 0⟩⟩

/-- Header of the header-only scenario: 120 s, 7680 ticks, 3840 frames. -/
def scenarioHeader : header := ⟨120 * Second, 7680, 3840⟩

/-- Parser that has read `scenarioHeader` and no server info. -/
def scenarioParser : parser Unit := { header := some scenarioHeader }

/-- Parser whose server info announced a tick interval of 1/64 s. -/
def serverInfoParser : parser Unit :=
  { tickInterval := Flt.ofRat binary32 (1 / 64), header := some scenarioHeader }

/-- Parser that has neither server info nor a header. -/
def freshParser : parser Unit := {}

/-- Parser whose header reports no frames. -/
def corruptParser : parser Unit :=
  { currentFrame := 17, header := some ⟨120 * Second, 7680, 0⟩ }

/-- Componentwise `min <= max` (Go comparison, so no coordinate is NaN). -/
def boundingBoxInformation.ordered (b : boundingBoxInformation) : Prop :=
  Flt.le b.min.X b.max.X = true ∧ Flt.le b.min.Y b.max.Y = true ∧
    Flt.le b.min.Z b.max.Z = true

/-- Datum that is an infinity or a finite value of magnitude at least `2 ^ k`,
with sign bit `s`: in particular neither a zero nor NaN. -/
def Flt.bigSigned (k : ℤ) (s : Bool) (a : Flt) : Prop :=
  a = .inf s ∨ ∃ r : ℚ, (2 : ℚ) ^ k ≤ r ∧ a = .num (if s = true then -r else r)

/-- Datum that is a zero. -/
def Flt.isZero : Flt → Prop
  | .zero _ => True
  | _ => False

/-- Range of Go's `int` (64-bit platforms) and `int64`. -/
def isInt (n : ℤ) : Prop := -9223372036854775808 ≤ n ∧ n < 9223372036854775808

/-- Parser one frame past a header that reports `2 ^ 24` frames. -/
def longDemoParser : parser Unit :=
  { currentFrame := 16777217, header := some ⟨0, 0, 16777216⟩ }

/-- Parser one frame past the frame count of `scenarioHeader`. -/
def overrunParser : parser Unit := { currentFrame := 3841, header := some scenarioHeader }

/-- Parser half way through `scenarioHeader`. -/
def halfwayParser : parser Unit := { currentFrame := 1920, header := some scenarioHeader }

/-- Parser that has consumed every frame of `scenarioHeader`. -/
def finishedParser : parser Unit := { currentFrame := 3840, header := some scenarioHeader }

/-- Bit reader whose `Close` succeeds. -/
def goodReader : BitReader String := ⟨none⟩

/-- Bit reader whose `Close` fails. -/
def brokenReader : BitReader String := ⟨some "file already closed"⟩

/-- Inverted box: `min` exceeds `max` in at least one coordinate (Go's `>`). -/
def boundingBoxInformation.inverted (b : boundingBoxInformation) : Prop :=
  Flt.gt b.min.X b.max.X = true ∨ Flt.gt b.min.Y b.max.Y = true ∨
    Flt.gt b.min.Z b.max.Z = true

/-- Two connected players and one who has left. -/
def playerOne : Player := ⟨3, 1, true⟩

/-- Second connected player. -/
def playerTwo : Player := ⟨4, 2, true⟩

/-- Player who has disconnected. -/
def playerGone : Player := ⟨5, 7, false⟩

/-- Store holding the game state's two maps of players. -/
def scenarioStore : MapStore :=
  [[(3, playerOne), (4, playerTwo), (5, playerGone)],
   [(1, playerOne), (2, playerTwo), (7, playerGone)]]

/-- Participants view over `scenarioStore`. -/
def scenarioParticipants : participants := ⟨0, 1⟩

/-! ## Comparisons -/

theorem Flt.ge_eq_le (a b : Flt) : Flt.ge a b = Flt.le b a := by
  rcases a with (_ | _) | q | (_ | _) | _ <;> rcases b with (_ | _) | r | (_ | _) | _ <;>
    simp [Flt.ge, Flt.le]

theorem Flt.le_refl_of_le {a b : Flt} (h : Flt.le a b = true) :
    Flt.le a a = true ∧ Flt.le b b = true := by
  rcases a with (_ | _) | q | (_ | _) | _ <;> rcases b with (_ | _) | r | (_ | _) | _ <;>
    simp_all [Flt.le]

/-! ## Binary exponent -/

theorem log2Fuel_spec (fuel n : ℕ) (h1 : 1 ≤ n) (h2 : n ≤ fuel) :
    2 ^ log2Fuel fuel n ≤ n ∧ n < 2 ^ (log2Fuel fuel n + 1) := by
  induction fuel generalizing n with
  | zero => omega
  | succ k ih =>
    unfold log2Fuel
    by_cases hn : n < 2
    · have : n = 1 := by omega
      subst this
      simp
    · rw [if_neg hn]
      obtain ⟨ha, hb⟩ := ih (n / 2) (by omega) (by omega)
      constructor
      · rw [pow_succ]; omega
      · rw [pow_succ]; omega

theorem two_zpow_pos (e : ℤ) : (0 : ℚ) < 2 ^ e := zpow_pos (by norm_num) e

theorem two_zpow_succ (e : ℤ) : (2 : ℚ) ^ (e + 1) = 2 ^ e * 2 := by
  rw [zpow_add₀ (by norm_num : (2 : ℚ) ≠ 0), zpow_one]

theorem ilog2_spec (x : ℚ) (hx : 0 < x) :
    (2 : ℚ) ^ ilog2 x ≤ x ∧ x < 2 ^ (ilog2 x + 1) := by
  have hnum : 0 < x.num := Rat.num_pos.mpr hx
  have hden : 0 < x.den := x.den_pos
  obtain ⟨a1, a2⟩ := log2Fuel_spec x.num.natAbs x.num.natAbs (by omega) le_rfl
  obtain ⟨b1, b2⟩ := log2Fuel_spec x.den x.den hden le_rfl
  set a := log2Fuel x.num.natAbs x.num.natAbs with ha
  set b := log2Fuel x.den x.den with hb
  have hxe : x = (x.num.natAbs : ℚ) / (x.den : ℚ) := by
    have h2 : (x.num : ℚ) = (x.num.natAbs : ℚ) := by
      calc (x.num : ℚ) = ((x.num.natAbs : ℤ) : ℚ) := by rw [Int.natAbs_of_nonneg hnum.le]
        _ = (x.num.natAbs : ℚ) := Int.cast_natCast _
    rw [← h2]
    exact (Rat.num_div_den x).symm
  have hdq : (0 : ℚ) < x.den := by exact_mod_cast hden
  have a1q : (2 : ℚ) ^ (a : ℤ) ≤ x.num.natAbs := by
    rw [zpow_natCast]; exact_mod_cast a1
  have a2q : (x.num.natAbs : ℚ) < 2 ^ (a : ℤ) * 2 := by
    rw [zpow_natCast, ← pow_succ]; exact_mod_cast a2
  have b1q : (2 : ℚ) ^ (b : ℤ) ≤ x.den := by
    rw [zpow_natCast]; exact_mod_cast b1
  have b2q : (x.den : ℚ) < 2 ^ (b : ℤ) * 2 := by
    rw [zpow_natCast, ← pow_succ]; exact_mod_cast b2
  have hpa := two_zpow_pos (a : ℤ)
  have hpb := two_zpow_pos (b : ℤ)
  have hsplit : (2 : ℚ) ^ ((a : ℤ) - (b : ℤ)) = 2 ^ (a : ℤ) / 2 ^ (b : ℤ) :=
    zpow_sub₀ (by norm_num) _ _
  -- upper bound: x < 2 ^ (a - b + 1)
  have hup : x < 2 ^ ((a : ℤ) - (b : ℤ)) * 2 := by
    rw [hsplit, hxe, div_mul_eq_mul_div, div_lt_div_iff₀ hdq hpb]
    nlinarith
  -- lower bound: 2 ^ (a - b - 1) ≤ x
  have hlo : (2 : ℚ) ^ ((a : ℤ) - (b : ℤ)) ≤ x * 2 := by
    rw [hsplit, hxe, div_mul_eq_mul_div, div_le_div_iff₀ hpb hdq]
    nlinarith
  unfold ilog2
  simp only [← ha, ← hb]
  by_cases hc : (2 : ℚ) ^ ((a : ℤ) - (b : ℤ)) ≤ x
  · rw [if_pos hc]
    exact ⟨hc, by rw [two_zpow_succ]; exact hup⟩
  · rw [if_neg hc]
    have h3 : (2 : ℚ) ^ ((a : ℤ) - (b : ℤ)) = 2 ^ ((a : ℤ) - (b : ℤ) - 1) * 2 := by
      rw [← two_zpow_succ]; congr 1; ring
    constructor
    · rw [h3] at hlo; linarith
    · rw [sub_add_cancel]; exact lt_of_not_le hc

theorem ilog2_unique (x : ℚ) (e : ℤ) (h1 : (2 : ℚ) ^ e ≤ x) (h2 : x < 2 ^ (e + 1)) :
    ilog2 x = e := by
  have hx : 0 < x := lt_of_lt_of_le (two_zpow_pos e) h1
  obtain ⟨s1, s2⟩ := ilog2_spec x hx
  have l1 : ilog2 x < e + 1 :=
    (zpow_lt_zpow_iff_right₀ (by norm_num : (1 : ℚ) < 2)).mp (lt_of_le_of_lt s1 h2)
  have l2 : e < ilog2 x + 1 :=
    (zpow_lt_zpow_iff_right₀ (by norm_num : (1 : ℚ) < 2)).mp (lt_of_le_of_lt h1 s2)
  omega

theorem le_ilog2 (x : ℚ) (k : ℤ) (h : (2 : ℚ) ^ k ≤ x) : k ≤ ilog2 x := by
  have hx : 0 < x := lt_of_lt_of_le (two_zpow_pos k) h
  have l2 : k < ilog2 x + 1 :=
    (zpow_lt_zpow_iff_right₀ (by norm_num : (1 : ℚ) < 2)).mp
      (lt_of_le_of_lt h (ilog2_spec x hx).2)
  omega

theorem ilog2_mono (x y : ℚ) (hx : 0 < x) (hxy : x ≤ y) : ilog2 x ≤ ilog2 y :=
  le_ilog2 y _ (le_trans (ilog2_spec x hx).1 hxy)

/-! ## Rounding to the nearest integer -/

theorem roundHalfEven_bounds (x : ℚ) : ⌊x⌋ ≤ roundHalfEven x ∧ roundHalfEven x ≤ ⌊x⌋ + 1 := by
  unfold roundHalfEven
  split_ifs <;> omega

theorem roundHalfEven_intCast (n : ℤ) : roundHalfEven (n : ℚ) = n := by
  unfold roundHalfEven
  simp

theorem roundHalfEven_err (x : ℚ) :
    x - 1 / 2 ≤ (roundHalfEven x : ℚ) ∧ (roundHalfEven x : ℚ) ≤ x + 1 / 2 := by
  have h1 := Int.floor_le x
  have h2 := Int.lt_floor_add_one x
  unfold roundHalfEven
  split_ifs with c1 c2 c3
  · constructor <;> linarith
  · push_cast; constructor <;> linarith
  · constructor <;> linarith
  · push_cast; constructor <;> linarith

theorem roundHalfEven_mono {x y : ℚ} (h : x ≤ y) : roundHalfEven x ≤ roundHalfEven y := by
  rcases (Int.floor_mono h).lt_or_eq with hlt | heq
  · have := (roundHalfEven_bounds x).2
    have := (roundHalfEven_bounds y).1
    omega
  · unfold roundHalfEven
    rw [← heq]
    split_ifs <;> first | omega | (exfalso; linarith)

/-! ## Rounding to the format's grid -/

theorem Fmt.quantum_pos (f : Fmt) (x : ℚ) : 0 < f.quantum x := two_zpow_pos _

theorem two_zpow_toNat (k : ℤ) (hk : 0 ≤ k) : (2 : ℚ) ^ k = ((2 ^ k.toNat : ℤ) : ℚ) := by
  conv_lhs => rw [← Int.toNat_of_nonneg hk]
  rw [zpow_natCast]
  push_cast
  rfl

theorem Fmt.roundMag_le_pow (f : Fmt) (hf : 0 ≤ f.fracBits) (x : ℚ) (hx : 0 < x) :
    f.roundMag x ≤ 2 ^ (max (ilog2 x) f.emin + 1) := by
  have hq := f.quantum_pos x
  have hlt : x < 2 ^ (max (ilog2 x) f.emin + 1) :=
    lt_of_lt_of_le (ilog2_spec x hx).2
      (zpow_le_zpow_right₀ (by norm_num) (by have := le_max_left (ilog2 x) f.emin; omega))
  have hsplit : (2 : ℚ) ^ (max (ilog2 x) f.emin + 1) = 2 ^ (f.fracBits + 1) * f.quantum x := by
    unfold Fmt.quantum
    rw [← zpow_add₀ (by norm_num : (2 : ℚ) ≠ 0)]
    congr 1; ring
  have hdiv : x / f.quantum x ≤ 2 ^ (f.fracBits + 1) := by
    rw [div_le_iff₀ hq, ← hsplit]; exact hlt.le
  rw [two_zpow_toNat _ (by omega)] at hdiv
  have hr := roundHalfEven_mono hdiv
  rw [roundHalfEven_intCast] at hr
  have hr' : (roundHalfEven (x / f.quantum x) : ℚ) ≤ ((2 ^ (f.fracBits + 1).toNat : ℤ) : ℚ) := by
    exact_mod_cast hr
  rw [← two_zpow_toNat _ (by omega)] at hr'
  unfold Fmt.roundMag
  rw [hsplit]
  exact mul_le_mul_of_nonneg_right hr' hq.le

theorem Fmt.pow_le_roundMag (f : Fmt) (hf : 0 ≤ f.fracBits) (x : ℚ) (hx : 0 < x)
    (hn : f.emin ≤ ilog2 x) : 2 ^ ilog2 x ≤ f.roundMag x := by
  have hq := f.quantum_pos x
  have hsplit : (2 : ℚ) ^ ilog2 x = 2 ^ f.fracBits * f.quantum x := by
    unfold Fmt.quantum
    rw [← zpow_add₀ (by norm_num : (2 : ℚ) ≠ 0), max_eq_left hn]
    congr 1; ring
  have hdiv : (2 : ℚ) ^ f.fracBits ≤ x / f.quantum x := by
    rw [le_div_iff₀ hq, ← hsplit]; exact (ilog2_spec x hx).1
  rw [two_zpow_toNat _ hf] at hdiv
  have hr := roundHalfEven_mono hdiv
  rw [roundHalfEven_intCast] at hr
  have hr' : ((2 ^ f.fracBits.toNat : ℤ) : ℚ) ≤ (roundHalfEven (x / f.quantum x) : ℚ) := by
    exact_mod_cast hr
  rw [← two_zpow_toNat _ hf] at hr'
  unfold Fmt.roundMag
  rw [hsplit]
  exact mul_le_mul_of_nonneg_right hr' hq.le

theorem Fmt.roundMag_ge_pow (f : Fmt) (hf : 0 ≤ f.fracBits) (x : ℚ) (k : ℤ) (hk : f.emin ≤ k)
    (h : (2 : ℚ) ^ k ≤ x) : 2 ^ k ≤ f.roundMag x := by
  have hx : 0 < x := lt_of_lt_of_le (two_zpow_pos k) h
  have hkl := le_ilog2 x k h
  exact le_trans (zpow_le_zpow_right₀ (by norm_num) hkl)
    (f.pow_le_roundMag hf x hx (le_trans hk hkl))

theorem Fmt.roundMag_mono (f : Fmt) (hf : 0 ≤ f.fracBits) (x y : ℚ) (hx : 0 < x) (hxy : x ≤ y) :
    f.roundMag x ≤ f.roundMag y := by
  have hy : 0 < y := lt_of_lt_of_le hx hxy
  have hl := ilog2_mono x y hx hxy
  rcases (max_le_max_right f.emin hl).lt_or_eq with hlt | heq
  · -- the exponent increases: separate the results by a power of two
    have hny : f.emin ≤ ilog2 y := by
      by_contra hc
      rw [max_eq_right (le_of_not_le hc)] at hlt
      exact absurd (le_max_right (ilog2 x) f.emin) (not_le.mpr hlt)
    rw [max_eq_left hny] at hlt
    calc f.roundMag x ≤ 2 ^ (max (ilog2 x) f.emin + 1) := f.roundMag_le_pow hf x hx
      _ ≤ 2 ^ ilog2 y := zpow_le_zpow_right₀ (by norm_num) (by omega)
      _ ≤ f.roundMag y := f.pow_le_roundMag hf y hy hny
  · have hqq : f.quantum x = f.quantum y := by unfold Fmt.quantum; rw [heq]
    have hq := f.quantum_pos y
    unfold Fmt.roundMag
    rw [hqq]
    apply mul_le_mul_of_nonneg_right _ hq.le
    have : x / f.quantum y ≤ y / f.quantum y := div_le_div_of_nonneg_right hxy hq.le
    exact_mod_cast roundHalfEven_mono this

theorem Fmt.roundMag_err (f : Fmt) (x : ℚ) :
    x - f.quantum x / 2 ≤ f.roundMag x ∧ f.roundMag x ≤ x + f.quantum x / 2 := by
  have hq := f.quantum_pos x
  obtain ⟨h1, h2⟩ := roundHalfEven_err (x / f.quantum x)
  have hx : x / f.quantum x * f.quantum x = x := div_mul_cancel₀ x hq.ne'
  unfold Fmt.roundMag
  constructor
  · have := mul_le_mul_of_nonneg_right h1 hq.le
    rw [sub_mul, hx] at this
    linarith
  · have := mul_le_mul_of_nonneg_right h2 hq.le
    rw [add_mul, hx] at this
    linarith

theorem Fmt.roundMag_exact (f : Fmt) (x : ℚ) (m : ℤ) (h : x = m * f.quantum x) :
    f.roundMag x = x := by
  have hq := f.quantum_pos x
  unfold Fmt.roundMag
  have : x / f.quantum x = (m : ℚ) := by
    rw [div_eq_iff hq.ne']; exact h
  rw [this, roundHalfEven_intCast]
  exact h.symm

/-! ## Rounded results away from zero -/

theorem Flt.round_bigSigned (f : Fmt) (hf : 0 ≤ f.fracBits) (x : ℚ) (z : Bool) (k : ℤ)
    (hk : f.emin ≤ k) (hx : (2 : ℚ) ^ k ≤ |x|) :
    (Flt.round f x z).bigSigned k (decide (x < 0)) := by
  have hpos : (0 : ℚ) < 2 ^ k := two_zpow_pos k
  have hx0 : x ≠ 0 := by
    intro h; rw [h, abs_zero] at hx; linarith
  have hr := f.roundMag_ge_pow hf |x| k hk hx
  unfold Flt.round Flt.bigSigned
  rw [if_neg hx0]
  by_cases hov : (2 : ℚ) ^ (f.emax + 1) ≤ f.roundMag |x|
  · left; rw [if_pos hov]
  · right
    rw [if_neg hov, if_neg (by linarith : f.roundMag |x| ≠ 0)]
    refine ⟨f.roundMag |x|, hr, ?_⟩
    by_cases hneg : x < 0 <;> simp [hneg]

theorem Flt.bigSigned_mono {k l : ℤ} {s : Bool} {a : Flt} (hkl : l ≤ k) (h : a.bigSigned k s) :
    a.bigSigned l s := by
  rcases h with h | ⟨r, hr, h⟩
  · exact Or.inl h
  · exact Or.inr ⟨r, le_trans (zpow_le_zpow_right₀ (by norm_num) hkl) hr, h⟩

theorem Flt.ofInt_bigSigned (f : Fmt) (hf : 0 ≤ f.fracBits) (he : f.emin ≤ 0) (n : ℤ)
    (hn : n ≠ 0) : (Flt.ofInt f n).bigSigned 0 (decide (n < 0)) := by
  have h1 : (2 : ℚ) ^ (0 : ℤ) ≤ |(n : ℚ)| := by
    rw [zpow_zero]
    have : (1 : ℤ) ≤ |n| := Int.one_le_abs hn
    exact_mod_cast this
  have := Flt.round_bigSigned f hf (n : ℚ) false 0 he h1
  have hs : decide ((n : ℚ) < 0) = decide (n < 0) := by
    congr 1; exact propext Int.cast_lt_zero
  rw [hs] at this
  exact this

theorem Flt.ofInt_zero (f : Fmt) : Flt.ofInt f 0 = .zero false := by
  simp [Flt.ofInt, Flt.round]

theorem Flt.bigSigned_isNeg {k : ℤ} {s : Bool} {a : Flt} (h : a.bigSigned k s) :
    a.isNeg = s := by
  rcases h with h | ⟨r, hr, h⟩
  · rw [h]; rfl
  · have hpos : (0 : ℚ) < 2 ^ k := two_zpow_pos k
    rw [h]
    cases s
    · simp [Flt.isNeg]; linarith
    · simp [Flt.isNeg]; linarith

theorem Flt.div_zero_bigSigned (f : Fmt) (t s : Bool) (k : ℤ) (b : Flt) (h : b.bigSigned k s) :
    Flt.div f (.zero t) b = .zero (xor t s) := by
  have hs := Flt.bigSigned_isNeg h
  rcases h with h | ⟨r, hr, h⟩
  · rw [h]; rfl
  · rw [h] at hs ⊢
    simp only [Flt.isNeg] at hs
    simp only [Flt.div, hs]

/-- Sum of two data of the same sign, each a zero or bounded away from zero,
not both zeros: bounded away from zero, with that sign. -/
theorem Flt.add_bigSigned (f : Fmt) (hf : 0 ≤ f.fracBits) (k : ℤ) (hk : f.emin ≤ k) (s : Bool)
    (a b : Flt) (ha : a.isZero ∨ a.bigSigned k s) (hb : b.isZero ∨ b.bigSigned k s)
    (hab : ¬ (a.isZero ∧ b.isZero)) : (Flt.add f a b).bigSigned k s := by
  have hpos : (0 : ℚ) < 2 ^ k := two_zpow_pos k
  -- rounding a value of sign `s` and magnitude at least `2 ^ k`
  have key : ∀ r : ℚ, (2 : ℚ) ^ k ≤ r →
      (Flt.round f (if s = true then -r else r) false).bigSigned k s := by
    intro r hr
    have h := Flt.round_bigSigned f hf (if s = true then -r else r) false k hk
      (by cases s <;> simp <;> rw [abs_of_pos (by linarith)] <;> exact hr)
    have hs : decide ((if s = true then -r else r) < 0) = s := by
      cases s <;> simp <;> linarith
    rw [hs] at h
    exact h
  rcases ha with ha | ha | ⟨p, hp, ha⟩ <;> rcases hb with hb | hb | ⟨q, hq, hb⟩
  · exact absurd ⟨ha, hb⟩ hab
  · cases a <;> simp [Flt.isZero] at ha
    rw [hb]; exact Or.inl rfl
  · cases a <;> simp [Flt.isZero] at ha
    rw [hb]; exact key q hq
  · cases b <;> simp [Flt.isZero] at hb
    rw [ha]; exact Or.inl rfl
  · rw [ha, hb]; left; simp [Flt.add]
  · rw [ha, hb]; exact Or.inl rfl
  · cases b <;> simp [Flt.isZero] at hb
    rw [ha]; exact key p hp
  · rw [ha, hb]; exact Or.inl rfl
  · rw [ha, hb]
    have : (if s = true then -p else p) + (if s = true then -q else q)
        = if s = true then -(p + q) else p + q := by
      cases s <;> simp; ring
    show (Flt.round f _ false).bigSigned k s
    rw [this]
    exact key (p + q) (by linarith)

/-! ## `Duration.Seconds` of a non-zero duration -/

theorem tdiv_tmod_sign (d : ℤ) (hd : d ≠ 0) :
    (d.tdiv Second = 0 ∨ (d.tdiv Second < 0 ↔ d < 0)) ∧
    (d.tmod Second = 0 ∨ (d.tmod Second < 0 ↔ d < 0)) ∧
    ¬ (d.tdiv Second = 0 ∧ d.tmod Second = 0) := by
  have hsum := Int.tdiv_add_tmod d Second
  unfold Second at *
  rcases lt_or_gt_of_ne hd with hneg | hpos
  · have h1 : d.tdiv 1000000000 = -((-d) / 1000000000) := by
      rw [← Int.tdiv_eq_ediv (by omega) (by norm_num), ← Int.neg_tdiv, neg_neg]
    rw [h1] at hsum ⊢
    omega
  · have h1 : d.tdiv 1000000000 = d / 1000000000 :=
      Int.tdiv_eq_ediv (by omega) (by norm_num)
    rw [h1] at hsum ⊢
    omega

theorem ofRat_billion : Flt.ofRat binary64 1000000000 = .num 1000000000 := by decide!

theorem div_billion_bigSigned (s : Bool) (n : Flt) (h : n.bigSigned 0 s) :
    (Flt.div binary64 n (.num 1000000000)).bigSigned (-30) s := by
  rcases h with h | ⟨r, hr, h⟩
  · have h9 : decide ((1000000000 : ℚ) < 0) = false := by norm_num
    rw [h]; left; simp [Flt.div, Flt.isNeg, h9]
  · rw [zpow_zero] at hr
    rw [h]
    have hx : (2 : ℚ) ^ (-30 : ℤ) ≤ |(if s = true then -r else r) / 1000000000| := by
      have habs : |(if s = true then -r else r) / 1000000000| = r / 1000000000 := by
        cases s <;> simp [abs_div] <;> rw [abs_of_pos (by linarith)]
      rw [habs, le_div_iff₀ (by norm_num)]
      have : (2 : ℚ) ^ (-30 : ℤ) * 1000000000 ≤ 1 := by norm_num
      linarith
    have hround := Flt.round_bigSigned binary64 (by decide) _
      (xor (decide ((if s = true then -r else r) < 0)) (decide ((1000000000 : ℚ) < 0)))
      (-30) (by decide) hx
    have hs : decide ((if s = true then -r else r) / 1000000000 < 0) = s := by
      cases s
      · simp; positivity
      · simp; rw [div_neg_iff]; right; constructor <;> linarith
    rw [hs] at hround
    exact hround

theorem Seconds_bigSigned (d : ℤ) (hd : d ≠ 0) :
    (Seconds d).bigSigned (-30) (decide (d < 0)) := by
  obtain ⟨hsec, hnsec, hnz⟩ := tdiv_tmod_sign d hd
  unfold Seconds
  rw [ofRat_billion]
  apply Flt.add_bigSigned binary64 (by decide) (-30) (by decide)
  · rcases hsec with h0 | hs
    · left; rw [h0, Flt.ofInt_zero]; trivial
    · by_cases h0 : d.tdiv Second = 0
      · left; rw [h0, Flt.ofInt_zero]; trivial
      · right
        have := Flt.ofInt_bigSigned binary64 (by decide) (by decide) _ h0
        rw [show decide (d.tdiv Second < 0) = decide (d < 0) from by simp [hs]] at this
        exact Flt.bigSigned_mono (by norm_num) this
  · by_cases h0 : d.tmod Second = 0
    · left; rw [h0, Flt.ofInt_zero]; simp [Flt.div, Flt.isZero]
    · right
      have hs : (d.tmod Second < 0 ↔ d < 0) := hnsec.resolve_left h0
      have := Flt.ofInt_bigSigned binary64 (by decide) (by decide) _ h0
      rw [show decide (d.tmod Second < 0) = decide (d < 0) from by simp [hs]] at this
      exact div_billion_bigSigned _ _ this
  · rintro ⟨ha, hb⟩
    apply hnz
    constructor
    · by_contra h0
      have := Flt.ofInt_bigSigned binary64 (by decide) (by decide) _ h0
      rcases this with h | ⟨r, _, h⟩ <;> rw [h] at ha <;> exact ha
    · by_contra h0
      have := div_billion_bigSigned _ _
        (Flt.ofInt_bigSigned binary64 (by decide) (by decide) _ h0)
      rcases this with h | ⟨r, _, h⟩ <;> rw [h] at hb <;> exact hb

/-! ## `float32` conversion of frame counters -/

theorem roundMag32_one : binary32.roundMag 1 = 1 := by decide!

theorem roundMag32_two_pow_63 : binary32.roundMag 9223372036854775808 = 9223372036854775808 := by
  decide!

theorem round32_one (z : Bool) : Flt.round binary32 1 z = .num 1 := by
  cases z <;> decide!

/-- Conversion of a non-zero Go `int` to `float32`: a finite value of the same
sign and of magnitude between 1 and `2 ^ 63`. -/
theorem ofInt32_of_int_range (n : ℤ) (hn : n ≠ 0) (hr : |n| ≤ 9223372036854775808) :
    Flt.ofInt binary32 n = .num (if n < 0 then -binary32.roundMag |(n : ℚ)|
        else binary32.roundMag |(n : ℚ)|) ∧
      1 ≤ binary32.roundMag |(n : ℚ)| ∧
      binary32.roundMag |(n : ℚ)| ≤ 9223372036854775808 := by
  have h1 : (1 : ℚ) ≤ |(n : ℚ)| := by
    have : (1 : ℤ) ≤ |n| := Int.one_le_abs hn
    exact_mod_cast this
  have h2 : |(n : ℚ)| ≤ 9223372036854775808 := by exact_mod_cast hr
  have lo : 1 ≤ binary32.roundMag |(n : ℚ)| := by
    have := binary32.roundMag_mono (by decide) 1 |(n : ℚ)| (by norm_num) h1
    rwa [roundMag32_one] at this
  have hi : binary32.roundMag |(n : ℚ)| ≤ 9223372036854775808 := by
    have := binary32.roundMag_mono (by decide) |(n : ℚ)| 9223372036854775808 (by linarith) h2
    rwa [roundMag32_two_pow_63] at this
  refine ⟨?_, lo, hi⟩
  have hn0 : (n : ℚ) ≠ 0 := by exact_mod_cast hn
  have hov : ¬ (2 : ℚ) ^ (binary32.emax + 1) ≤ binary32.roundMag |(n : ℚ)| := by
    have : (9223372036854775808 : ℚ) < 2 ^ (binary32.emax + 1) := by
      simp only [binary32]; norm_num
    intro h; linarith
  unfold Flt.ofInt Flt.round
  rw [if_neg hn0, if_neg hov, if_neg (by linarith : binary32.roundMag |(n : ℚ)| ≠ 0)]
  by_cases hneg : n < 0
  · have : (n : ℚ) < 0 := by exact_mod_cast hneg
    simp [hneg, this]
  · have : ¬ (n : ℚ) < 0 := by exact_mod_cast hneg
    simp [hneg, this]

/-- Integers of magnitude at most `2 ^ 24` convert to `float32` exactly. -/
theorem ofInt32_exact (n : ℤ) (hn : n ≠ 0) (hr : |n| ≤ 16777216) :
    Flt.ofInt binary32 n = .num (n : ℚ) := by
  have hrange := ofInt32_of_int_range n hn (by omega)
  have h1 : (1 : ℚ) ≤ |(n : ℚ)| := by
    have : (1 : ℤ) ≤ |n| := Int.one_le_abs hn
    exact_mod_cast this
  have h2 : |(n : ℚ)| ≤ 16777216 := by exact_mod_cast hr
  have hx : 0 < |(n : ℚ)| := by linarith
  have hexact : binary32.roundMag |(n : ℚ)| = |(n : ℚ)| := by
    have e0 : 0 ≤ ilog2 |(n : ℚ)| := le_ilog2 _ 0 (by rw [zpow_zero]; exact h1)
    have e24 : ilog2 |(n : ℚ)| < 25 := by
      have := (ilog2_spec _ hx).1
      have h25 : |(n : ℚ)| < 2 ^ (25 : ℤ) := by norm_num; linarith
      exact (zpow_lt_zpow_iff_right₀ (by norm_num : (1 : ℚ) < 2)).mp (lt_of_le_of_lt this h25)
    have hq : binary32.quantum |(n : ℚ)| = 2 ^ (ilog2 |(n : ℚ)| - 23) := by
      unfold Fmt.quantum
      rw [max_eq_left (by simp only [binary32]; omega)]
      rfl
    rcases (show ilog2 |(n : ℚ)| ≤ 23 ∨ ilog2 |(n : ℚ)| = 24 by omega) with hle | h24
    · apply binary32.roundMag_exact _ (|n| * 2 ^ (23 - ilog2 |(n : ℚ)|).toNat)
      rw [hq]
      push_cast
      have : ((2 : ℚ) ^ (23 - ilog2 |(n : ℚ)|).toNat) = 2 ^ (23 - ilog2 |(n : ℚ)|) := by
        rw [← zpow_natCast, Int.toNat_of_nonneg (by omega)]
      rw [this, mul_assoc, ← zpow_add₀ (by norm_num : (2 : ℚ) ≠ 0)]
      simp
    · have hge := (ilog2_spec _ hx).1
      rw [h24] at hge
      have hval : |(n : ℚ)| = 16777216 := le_antisymm h2 (by norm_num at hge; exact hge)
      apply binary32.roundMag_exact _ 8388608
      rw [hq, h24, hval]
      norm_num
  rw [hrange.1, hexact]
  by_cases hneg : n < 0
  · have : (n : ℚ) < 0 := by exact_mod_cast hneg
    rw [if_pos hneg, abs_of_neg this, neg_neg]
  · have : (0 : ℚ) ≤ n := by exact_mod_cast (not_lt.mp hneg)
    rw [if_neg hneg, abs_of_nonneg this]

/-- A `float32` result that compares equal to 1 was rounded from a positive
value whose nearest grid point is 1. -/
theorem round_eq_one (f : Fmt) (x : ℚ) (z : Bool)
    (h : Flt.eq (Flt.round f x z) (.num 1) = true) : 0 < x ∧ f.roundMag |x| = 1 := by
  unfold Flt.round at h
  split_ifs at h with h0 hov hz hneg
  · simp [Flt.eq, Flt.val] at h
  · simp [Flt.eq] at h
  · simp [Flt.eq, Flt.val] at h
  · simp [Flt.eq, Flt.val] at h
    exfalso
    have : 0 ≤ f.roundMag |x| := by
      unfold Fmt.roundMag
      apply mul_nonneg _ (f.quantum_pos _).le
      have hfl : (0 : ℤ) ≤ ⌊|x| / f.quantum |x|⌋ :=
        Int.floor_nonneg.mpr (div_nonneg (abs_nonneg x) (f.quantum_pos _).le)
      have := (roundHalfEven_bounds (|x| / f.quantum |x|)).1
      exact_mod_cast le_trans hfl this
    linarith
  · simp [Flt.eq, Flt.val] at h
    exact ⟨lt_of_le_of_ne (not_lt.mp hneg) (Ne.symm h0), h⟩

/-- Values that round to 1 in `float32` lie within half a grid step of 1. -/
theorem roundMag32_eq_one_bounds (x : ℚ) (hx : 0 < x) (h : binary32.roundMag x = 1) :
    1 - 1 / 33554432 ≤ x ∧ x ≤ 1 + 1 / 16777216 := by
  have hup := binary32.roundMag_le_pow (by decide) x hx
  rw [h] at hup
  have hE : 0 ≤ max (ilog2 x) binary32.emin + 1 := by
    have : (2 : ℚ) ^ (0 : ℤ) ≤ 2 ^ (max (ilog2 x) binary32.emin + 1) := by
      rw [zpow_zero]; exact hup
    exact (zpow_le_zpow_iff_right₀ (by norm_num : (1 : ℚ) < 2)).mp this
  have hemin : binary32.emin = -126 := rfl
  have he : binary32.emin ≤ ilog2 x := by
    rcases le_total (ilog2 x) binary32.emin with hc | hc
    · rw [max_eq_right hc] at hE; omega
    · exact hc
  have hlo := binary32.pow_le_roundMag (by decide) x hx he
  rw [h] at hlo
  have he0 : ilog2 x ≤ 0 := by
    have : (2 : ℚ) ^ ilog2 x ≤ 2 ^ (0 : ℤ) := by rw [zpow_zero]; exact hlo
    exact (zpow_le_zpow_iff_right₀ (by norm_num : (1 : ℚ) < 2)).mp this
  have he1 : -1 ≤ ilog2 x := by
    rw [max_eq_left he] at hE; omega
  obtain ⟨err1, err2⟩ := binary32.roundMag_err x
  rw [h] at err1 err2
  have hq : binary32.quantum x = 2 ^ (ilog2 x - 23) := by
    unfold Fmt.quantum
    rw [max_eq_left he]
    rfl
  rcases (show ilog2 x = 0 ∨ ilog2 x = -1 by omega) with h0 | h1
  · have hge := (ilog2_spec x hx).1
    rw [h0, zpow_zero] at hge
    rw [hq, h0] at err1
    norm_num at err1
    constructor <;> linarith
  · rw [hq, h1] at err1 err2
    norm_num at err1 err2
    constructor <;> linarith

theorem isInt_abs {n : ℤ} (h : isInt n) : |n| ≤ 9223372036854775808 := by
  obtain ⟨h1, h2⟩ := h
  rw [abs_le]; omega

theorem Progress_eq_div {Err : Type} (p : parser Err) (h : header) (hh : p.header = some h)
    (hf : h.PlaybackFrames ≠ 0) :
    p.Progress =
      Flt.div binary32 (Flt.ofInt binary32 p.currentFrame) (Flt.ofInt binary32 h.PlaybackFrames) := by
  simp [parser.Progress, hh, hf]

/-- Rounding a quotient in `[2 ^ (-126), 1]` to `float32` gives a finite value in `(0, 1]`. -/
theorem round32_unit (x : ℚ) (z : Bool) (h1 : (2 : ℚ) ^ (-126 : ℤ) ≤ x) (h2 : x ≤ 1) :
    ∃ r : ℚ, Flt.round binary32 x z = .num r ∧ 0 < r ∧ r ≤ 1 := by
  have hpos : (0 : ℚ) < 2 ^ (-126 : ℤ) := two_zpow_pos _
  have hx : 0 < x := lt_of_lt_of_le hpos h1
  have habs : |x| = x := abs_of_pos hx
  have hup : binary32.roundMag x ≤ 1 := by
    have := binary32.roundMag_mono (by decide) x 1 hx h2
    rwa [roundMag32_one] at this
  have hlo := binary32.roundMag_ge_pow (by decide) x (-126) (by decide) h1
  have hov : ¬ (2 : ℚ) ^ (binary32.emax + 1) ≤ binary32.roundMag x := by
    have : (1 : ℚ) < 2 ^ (binary32.emax + 1) := by
      simp only [binary32]; norm_num
    intro h; linarith
  refine ⟨binary32.roundMag x, ?_, by linarith, hup⟩
  unfold Flt.round
  rw [habs, if_neg hx.ne', if_neg hov, if_neg (by linarith : binary32.roundMag x ≠ 0),
    if_neg (not_lt.mpr hx.le)]

/-! ## Bombsite containment -/

/-- Claim C1: `contains` holds exactly when each coordinate of the point lies
between the box's `min` and `max`, bounds included; for the scenario box
`(0,0,25)` and `(100,100,50)` are inside and `(100.01,0,25)` is outside. -/
theorem contains_iff_inclusive_ranges :
    (∀ (b : boundingBoxInformation) (p : Vector),
      b.contains p = true ↔
        (Flt.le b.min.X p.X = true ∧ Flt.le p.X b.max.X = true) ∧
        (Flt.le b.min.Y p.Y = true ∧ Flt.le p.Y b.max.Y = true) ∧
        (Flt.le b.min.Z p.Z = true ∧ Flt.le p.Z b.max.Z = true)) ∧
    siteA.contains ⟨Flt.ofRat binary64 0, Flt.ofRat binary64 0, Flt.ofRat binary64 25⟩ = true ∧
    siteA.contains ⟨Flt.ofRat binary64 100, Flt.ofRat binary64 100, Flt.ofRat binary64 50⟩ = true ∧
    siteA.contains ⟨Flt.ofRat binary64 (10001 / 100), Flt.ofRat binary64 0,
      Flt.ofRat binary64 25⟩ = false := by
  refine ⟨?_, by decide!, by decide!, by decide!⟩
  intro b p
  simp only [boundingBoxInformation.contains, Flt.ge_eq_le, Bool.and_eq_true]
  tauto

/-- The corners of an inverted box are not inside it: the reflexivity of
claim C2 fails without an ordering assumption on the box. -/
theorem contains_corners_inverted_box :
    ¬ ∀ b : boundingBoxInformation, b.contains b.min = true ∧ b.contains b.max = true := by
  intro h
  have h1 := (h invertedBox).1
  revert h1
  decide!

/-- Claim C2, amended: for every box with `min <= max` in each coordinate,
both bounding corners are inside the box. -/
theorem contains_corners_of_ordered (b : boundingBoxInformation) (h : b.ordered) :
    b.contains b.min = true ∧ b.contains b.max = true := by
  obtain ⟨hx, hy, hz⟩ := h
  have rx := Flt.le_refl_of_le hx
  have ry := Flt.le_refl_of_le hy
  have rz := Flt.le_refl_of_le hz
  simp [boundingBoxInformation.contains, Flt.ge_eq_le, hx, hy, hz, rx.1, rx.2, ry.1, ry.2,
    rz.1, rz.2]

theorem contains_corners_of_ordered_witness :
    siteA.ordered ∧ siteA.contains siteA.min = true ∧ siteA.contains siteA.max = true :=
  ⟨⟨by decide!, by decide!, by decide!⟩,
    contains_corners_of_ordered siteA ⟨by decide!, by decide!, by decide!⟩⟩

/-! ## Tick rate, tick time, frame rate -/

/-- Claim C3: with a header of 120 s, 7680 ticks and 3840 frames and no tick
interval from server info, `TickRate` is 64, `FrameRate` is 32 and `TickTime`
is 15625000 ns, all exactly. -/
theorem header_only_scenario {Err : Type} (p : parser Err) (outOfRange : Flt → ℤ) (h : header)
    (hh : p.header = some h) (ht : h.PlaybackTime = 120 * Second)
    (hk : h.PlaybackTicks = 7680) (hf : h.PlaybackFrames = 3840)
    (hz : Flt.eq p.tickInterval (.zero false) = true) :
    p.TickRate = .num 64 ∧ h.FrameRate = .num 32 ∧
      p.TickTime outOfRange = some 15625000 := by
  obtain ⟨t, k, n⟩ := h
  simp only at ht hk hf
  subst ht hk hf
  refine ⟨?_, by decide!, ?_⟩
  · simp only [parser.TickRate, Flt.ne, hz, hh, Bool.not_true, Bool.false_eq_true, if_false]
    decide!
  · simp only [parser.TickTime, Flt.ne, hz, hh, Bool.not_true, Bool.false_eq_true, if_false]
    decide!

theorem header_only_scenario_witness :
    scenarioParser.TickRate = .num 64 ∧ scenarioHeader.FrameRate = .num 32 ∧
      scenarioParser.TickTime (fun _ => 0) = some 15625000 :=
  header_only_scenario scenarioParser (fun _ => 0) scenarioHeader rfl rfl rfl rfl (by decide!)

/-- Claim C4: when `PlaybackTime` is 0 or `PlaybackFrames` is 0, `FrameRate`
returns a zero (one that compares equal to 0; its sign bit is set only for a
negative `PlaybackTime`) and `FrameTime` returns 0 without panicking, although
each function tests only one of the two fields. -/
theorem FrameRate_FrameTime_zero (h : header)
    (hz : h.PlaybackTime = 0 ∨ h.PlaybackFrames = 0) :
    Flt.eq h.FrameRate (.zero false) = true ∧
      h.FrameRate = .zero (decide (h.PlaybackTime < 0)) ∧
      h.FrameTime = some 0 := by
  have hrate : h.FrameRate = .zero (decide (h.PlaybackTime < 0)) := by
    unfold header.FrameRate
    by_cases ht : h.PlaybackTime = 0
    · simp [ht]
    · have hf : h.PlaybackFrames = 0 := hz.resolve_left ht
      rw [if_neg ht, hf, Flt.ofInt_zero,
        Flt.div_zero_bigSigned binary64 false _ (-30) _ (Seconds_bigSigned _ ht)]
      simp
  refine ⟨?_, hrate, ?_⟩
  · rw [hrate]; rfl
  · unfold header.FrameTime
    by_cases hf : h.PlaybackFrames = 0
    · simp [hf]
    · have ht : h.PlaybackTime = 0 := hz.resolve_right hf
      simp [hf, ht, goDiv64, wrap64]

theorem FrameRate_FrameTime_zero_witness :
    (Flt.eq (header.FrameRate ⟨120 * Second, 7680, 0⟩) (.zero false) = true ∧
      header.FrameRate ⟨120 * Second, 7680, 0⟩ = .zero false ∧
      header.FrameTime ⟨120 * Second, 7680, 0⟩ = some 0) ∧
    (Flt.eq (header.FrameRate ⟨0, 7680, 3840⟩) (.zero false) = true ∧
      header.FrameRate ⟨0, 7680, 3840⟩ = .zero false ∧
      header.FrameTime ⟨0, 7680, 3840⟩ = some 0) :=
  ⟨FrameRate_FrameTime_zero ⟨120 * Second, 7680, 0⟩ (Or.inr rfl),
    FrameRate_FrameTime_zero ⟨0, 7680, 3840⟩ (Or.inl rfl)⟩

/-- Claim C5: `TickRate` is `1 / tickInterval` when the tick interval is
non-zero, whatever the header; otherwise, with a header, it is
`PlaybackTicks / PlaybackTime.Seconds()` (0 when `PlaybackTime` is 0);
otherwise, without a header, it is -1. -/
theorem TickRate_cases {Err : Type} (p : parser Err) :
    (Flt.ne p.tickInterval (.zero false) = true →
      p.TickRate = Flt.div binary64 (Flt.ofRat binary64 1) p.tickInterval) ∧
    (Flt.ne p.tickInterval (.zero false) = false → ∀ h, p.header = some h →
      p.TickRate =
        if h.PlaybackTime = 0 then .zero false
        else Flt.div binary64 (Flt.ofInt binary64 h.PlaybackTicks) (Seconds h.PlaybackTime)) ∧
    (Flt.ne p.tickInterval (.zero false) = false → p.header = none →
      p.TickRate = .num (-1)) := by
  refine ⟨fun hne => ?_, fun hz h hh => ?_, fun hz hh => ?_⟩
  · simp [parser.TickRate, hne]
  · simp [parser.TickRate, hz, hh, legacyTickRate]
  · simp only [parser.TickRate, hz, hh, Bool.false_eq_true, if_false]
    decide!

theorem TickRate_cases_witness :
    serverInfoParser.TickRate = .num 64 ∧ scenarioParser.TickRate = .num 64 ∧
      freshParser.TickRate = .num (-1) := by
  refine ⟨?_, ?_, (TickRate_cases freshParser).2.2 (by decide!) rfl⟩
  · rw [(TickRate_cases serverInfoParser).1 (by decide!)]
    decide!
  · rw [(TickRate_cases scenarioParser).2.1 (by decide!) scenarioHeader rfl]
    decide!

/-- Claim C6: `TickTime` is the tick interval in seconds converted to a
duration when the tick interval is non-zero, whatever the header; otherwise,
with a header, it is `PlaybackTime` in nanoseconds integer-divided by
`PlaybackTicks` (0 when `PlaybackTicks` is 0, and the division never has a
zero divisor); otherwise, without a header, it is -1.  No case panics. -/
theorem TickTime_cases {Err : Type} (outOfRange : Flt → ℤ) (p : parser Err) :
    (Flt.ne p.tickInterval (.zero false) = true →
      p.TickTime outOfRange =
        some (Flt.toInt64 outOfRange
          (Flt.mul binary32 (Flt.ofInt binary32 Second) p.tickInterval))) ∧
    (Flt.ne p.tickInterval (.zero false) = false → ∀ h, p.header = some h →
      p.TickTime outOfRange =
        some (if h.PlaybackTicks = 0 then 0
          else wrap64 (Int.tdiv h.PlaybackTime h.PlaybackTicks))) ∧
    (Flt.ne p.tickInterval (.zero false) = false → p.header = none →
      p.TickTime outOfRange = some (-1)) := by
  refine ⟨fun hne => ?_, fun hz h hh => ?_, fun hz hh => ?_⟩
  · simp [parser.TickTime, hne]
  · simp only [parser.TickTime, hz, hh, legayTickTime, goDiv64]
    by_cases hk : h.PlaybackTicks = 0 <;> simp [hk]
  · simp [parser.TickTime, hz, hh]

theorem TickTime_cases_witness :
    serverInfoParser.TickTime (fun _ => 0) = some 15625000 ∧
      scenarioParser.TickTime (fun _ => 0) = some 15625000 ∧
      corruptParser.TickTime (fun _ => 0) = some 15625000 ∧
      freshParser.TickTime (fun _ => 0) = some (-1) := by
  refine ⟨?_, ?_, ?_, (TickTime_cases _ freshParser).2.2 (by decide!) rfl⟩
  · rw [(TickTime_cases _ serverInfoParser).1 (by decide!)]
    decide!
  · rw [(TickTime_cases _ scenarioParser).2.1 (by decide!) scenarioHeader rfl]
    decide!
  · rw [(TickTime_cases _ corruptParser).2.1 (by decide!) _ rfl]
    decide!

/-! ## Progress -/

/-- Claim C7: without a header, or with a header whose `PlaybackFrames` is 0,
`Progress` is 0 whatever `currentFrame` is; no division takes place. -/
theorem Progress_zero_of_corrupt {Err : Type} (p : parser Err)
    (h : p.header = none ∨ ∃ hd, p.header = some hd ∧ hd.PlaybackFrames = 0) :
    p.Progress = .zero false := by
  rcases h with h | ⟨hd, h, h0⟩
  · simp [parser.Progress, h]
  · simp [parser.Progress, h, h0]

theorem Progress_zero_of_corrupt_witness :
    freshParser.Progress = .zero false ∧ corruptParser.Progress = .zero false :=
  ⟨Progress_zero_of_corrupt freshParser (Or.inl rfl),
    Progress_zero_of_corrupt corruptParser (Or.inr ⟨_, rfl, rfl⟩)⟩

/-- The converse half of claim C8 fails beyond `2 ^ 24` frames: `float32`
cannot tell `2 ^ 24 + 1` from `2 ^ 24`, so `Progress` is exactly 1 while
`currentFrame` differs from `PlaybackFrames`. -/
theorem Progress_one_with_unequal_frames :
    ¬ ∀ (p : parser Unit) (h : header), p.header = some h → h.PlaybackFrames ≠ 0 →
      (Flt.eq p.Progress (.num 1) = true ↔ p.currentFrame = h.PlaybackFrames) := by
  intro hall
  have h := (hall longDemoParser ⟨0, 0, 16777216⟩ rfl (by decide)).mp (by decide!)
  revert h
  decide

/-- Claim C8, amended: with a non-zero `PlaybackFrames`, `Progress` is
`float32(currentFrame) / float32(PlaybackFrames)`; it is exactly 1 whenever
`currentFrame == PlaybackFrames`; and when both counters have magnitude at
most `2 ^ 24` (the integers `float32` represents exactly) it is 1 only then. -/
theorem Progress_eq_one_iff {Err : Type} (p : parser Err) (h : header)
    (hh : p.header = some h) (hf : h.PlaybackFrames ≠ 0)
    (hfr : isInt h.PlaybackFrames) :
    p.Progress =
        Flt.div binary32 (Flt.ofInt binary32 p.currentFrame)
          (Flt.ofInt binary32 h.PlaybackFrames) ∧
      (p.currentFrame = h.PlaybackFrames → p.Progress = .num 1) ∧
      (|p.currentFrame| ≤ 16777216 → |h.PlaybackFrames| ≤ 16777216 →
        Flt.eq p.Progress (.num 1) = true → p.currentFrame = h.PlaybackFrames) := by
  have hdiv := Progress_eq_div p h hh hf
  refine ⟨hdiv, ?_, ?_⟩
  · intro heq
    obtain ⟨hval, hlo, _⟩ := ofInt32_of_int_range h.PlaybackFrames hf (isInt_abs hfr)
    rw [hdiv, heq, hval]
    have hne : (if h.PlaybackFrames < 0 then -binary32.roundMag |(h.PlaybackFrames : ℚ)|
        else binary32.roundMag |(h.PlaybackFrames : ℚ)|) ≠ 0 := by
      split_ifs <;> linarith
    simp only [Flt.div, div_self hne]
    exact round32_one _
  · intro hc24 hf24 hone
    by_cases hc0 : p.currentFrame = 0
    · exfalso
      rw [hdiv, hc0, Flt.ofInt_zero, ofInt32_exact _ hf hf24] at hone
      simp [Flt.div, Flt.eq, Flt.val] at hone
    · rw [hdiv, ofInt32_exact _ hc0 hc24, ofInt32_exact _ hf hf24] at hone
      simp only [Flt.div] at hone
      obtain ⟨hpos, hmag⟩ := round_eq_one _ _ _ hone
      rw [abs_of_pos hpos] at hmag
      obtain ⟨b1, b2⟩ := roundMag32_eq_one_bounds _ hpos hmag
      have hfq : (h.PlaybackFrames : ℚ) ≠ 0 := by exact_mod_cast hf
      rw [abs_le] at hc24 hf24
      rcases lt_or_gt_of_ne hf with hneg | hposf
      · have hq : (h.PlaybackFrames : ℚ) < 0 := by exact_mod_cast hneg
        rw [le_div_iff_of_neg hq] at b1
        rw [div_le_iff_of_neg hq] at b2
        have i1 : 33554432 * p.currentFrame ≤ 33554431 * h.PlaybackFrames := by
          have : (33554432 * p.currentFrame : ℚ) ≤ 33554431 * h.PlaybackFrames := by linarith
          exact_mod_cast this
        have i2 : 16777217 * h.PlaybackFrames ≤ 16777216 * p.currentFrame := by
          have : (16777217 * h.PlaybackFrames : ℚ) ≤ 16777216 * p.currentFrame := by linarith
          exact_mod_cast this
        omega
      · have hq : (0 : ℚ) < h.PlaybackFrames := by exact_mod_cast hposf
        rw [le_div_iff₀ hq] at b1
        rw [div_le_iff₀ hq] at b2
        have i1 : 33554431 * h.PlaybackFrames ≤ 33554432 * p.currentFrame := by
          have : (33554431 * h.PlaybackFrames : ℚ) ≤ 33554432 * p.currentFrame := by linarith
          exact_mod_cast this
        have i2 : 16777216 * p.currentFrame ≤ 16777217 * h.PlaybackFrames := by
          have : (16777216 * p.currentFrame : ℚ) ≤ 16777217 * h.PlaybackFrames := by linarith
          exact_mod_cast this
        omega

theorem Progress_eq_one_iff_witness :
    finishedParser.Progress =
        Flt.div binary32 (Flt.ofInt binary32 3840) (Flt.ofInt binary32 3840) ∧
      (finishedParser.currentFrame = scenarioHeader.PlaybackFrames →
        finishedParser.Progress = .num 1) ∧
      (|finishedParser.currentFrame| ≤ 16777216 → |scenarioHeader.PlaybackFrames| ≤ 16777216 →
        Flt.eq finishedParser.Progress (.num 1) = true →
        finishedParser.currentFrame = scenarioHeader.PlaybackFrames) :=
  Progress_eq_one_iff finishedParser scenarioHeader rfl (by decide) ⟨by decide, by decide⟩

/-- Claim C9 (a result between 0 and 1, values above 1 clamped) against the
code: one frame past the 3840 frames of the header `Progress` returns
`float32(3841) / float32(3840)`, which is `8390793 / 8388608`, above 1.  Nothing
clamps it, although the comment of `Progress` announces a progress from 0 to 1. -/
theorem Progress_overrun_not_clamped :
    overrunParser.Progress = .num (8390793 / 8388608) ∧
      Flt.gt overrunParser.Progress (.num 1) = true ∧
      Flt.le overrunParser.Progress (.num 1) = false := by
  decide!

/-- Where the range does hold: without a header, with a header that reports no
frames, or with `currentFrame` between 0 and `PlaybackFrames`, `Progress` lies
in the closed range from 0 to 1. -/
theorem Progress_in_unit_range {Err : Type} (p : parser Err)
    (hr : ∀ h, p.header = some h → h.PlaybackFrames = 0 ∨
      (0 ≤ p.currentFrame ∧ p.currentFrame ≤ h.PlaybackFrames ∧ isInt h.PlaybackFrames)) :
    Flt.le (.zero false) p.Progress = true ∧ Flt.le p.Progress (.num 1) = true := by
  cases hh : p.header with
  | none => simp [parser.Progress, hh, Flt.le, Flt.val]
  | some h =>
    by_cases hf : h.PlaybackFrames = 0
    · simp [parser.Progress, hh, hf, Flt.le, Flt.val]
    · obtain ⟨hc0, hcf, hfr⟩ := (hr h hh).resolve_left hf
      rw [Progress_eq_div p h hh hf]
      obtain ⟨hval, hlo, hhi⟩ := ofInt32_of_int_range h.PlaybackFrames hf (isInt_abs hfr)
      have hfpos : ¬ h.PlaybackFrames < 0 := by omega
      rw [if_neg hfpos] at hval
      by_cases hc : p.currentFrame = 0
      · rw [hc, Flt.ofInt_zero, hval]
        simp [Flt.div, Flt.le, Flt.val]
      · have hcr : |p.currentFrame| ≤ 9223372036854775808 := by
          have := hfr.2
          rw [abs_le]; omega
        obtain ⟨cval, clo, chi⟩ := ofInt32_of_int_range p.currentFrame hc hcr
        rw [if_neg (by omega : ¬ p.currentFrame < 0)] at cval
        have hmono : binary32.roundMag |(p.currentFrame : ℚ)| ≤
            binary32.roundMag |(h.PlaybackFrames : ℚ)| := by
          have c1 : (0 : ℚ) < p.currentFrame := by
            have : 0 < p.currentFrame := by omega
            exact_mod_cast this
          have c2 : (p.currentFrame : ℚ) ≤ h.PlaybackFrames := by exact_mod_cast hcf
          rw [abs_of_pos c1, abs_of_pos (lt_of_lt_of_le c1 c2)]
          exact binary32.roundMag_mono (by decide) _ _ c1 c2
        rw [cval, hval]
        simp only [Flt.div]
        set a := binary32.roundMag |(p.currentFrame : ℚ)| with ha
        set b := binary32.roundMag |(h.PlaybackFrames : ℚ)| with hb
        have hbpos : 0 < b := by linarith
        have q1 : (2 : ℚ) ^ (-126 : ℤ) ≤ a / b := by
          rw [le_div_iff₀ hbpos]
          have : (2 : ℚ) ^ (-126 : ℤ) * 9223372036854775808 ≤ 1 := by norm_num
          have : (2 : ℚ) ^ (-126 : ℤ) * b ≤ (2 : ℚ) ^ (-126 : ℤ) * 9223372036854775808 :=
            mul_le_mul_of_nonneg_left hhi (two_zpow_pos _).le
          linarith
        have q2 : a / b ≤ 1 := by
          rw [div_le_one hbpos]; exact hmono
        obtain ⟨r, hround, r0, r1⟩ := round32_unit (a / b) _ q1 q2
        rw [hround]
        simp [Flt.le, Flt.val, r0.le, r1]

theorem Progress_in_unit_range_examples :
    (Flt.le (.zero false) halfwayParser.Progress = true ∧
      Flt.le halfwayParser.Progress (.num 1) = true) ∧
    (Flt.le (.zero false) corruptParser.Progress = true ∧
      Flt.le corruptParser.Progress (.num 1) = true) :=
  ⟨Progress_in_unit_range halfwayParser (fun h hh => by
      have : h = scenarioHeader := by
        have h2 : halfwayParser.header = some scenarioHeader := rfl
        rw [h2] at hh
        exact (Option.some.inj hh).symm
      subst this
      exact Or.inr ⟨by decide, by decide, by decide, by decide⟩),
    Progress_in_unit_range corruptParser (fun h hh => by
      have h2 : corruptParser.header = some ⟨120 * Second, 7680, 0⟩ := rfl
      rw [h2] at hh
      rw [← Option.some.inj hh]
      exact Or.inl rfl)⟩

/-! ## Latched error -/

/-- Claim C10: after any sequence of `setError` calls `error` returns the
first non-nil error among the one already latched and those passed, in order
(nil when there is none); `setError(nil)` changes nothing, and a latched
non-nil error is never replaced. -/
theorem setError_first_writer_wins {Err : Type} (p : parser Err) (errs : List (Option Err)) :
    (errs.foldl parser.setError p).error = (p.err :: errs).findSome? id ∧
    p.setError none = p ∧
    ∀ (e0 : Err) (e : Option Err),
      ({ p with err := some e0 } : parser Err).setError e = { p with err := some e0 } := by
  refine ⟨?_, rfl, ?_⟩
  · induction errs generalizing p with
    | nil => cases h : p.err <;> simp [parser.error, h]
    | cons e es ih =>
      rw [List.foldl_cons, ih]
      cases e with
      | none => cases h : p.err <;> simp [parser.setError, h]
      | some e => cases h : p.err <;> simp [parser.setError, h]
  · intro e0 e
    cases e <;> simp [parser.setError]

/-! ## Closing the parser -/

/-- Claim C11: `Close` leaves the latched error as it was and its result does
not depend on it: the result is non-nil exactly when there is a bit reader
whose `Close` fails, and is then that failure, wrapped. -/
theorem Close_keeps_latched_error {Err : Type} (wrap : Err → Err) (p : parser Err) :
    (p.Close wrap).1.error = p.error ∧
    ((p.Close wrap).2 ≠ none ↔ ∃ r e, p.bitReader = some r ∧ r.Close = some e) ∧
    (∀ r e, p.bitReader = some r → r.Close = some e → (p.Close wrap).2 = some (wrap e)) ∧
    (∀ e : Option Err, (({ p with err := e } : parser Err).Close wrap).2 = (p.Close wrap).2) := by
  refine ⟨?_, ?_, ?_, ?_⟩
  · unfold parser.Close parser.error
    cases hb : p.bitReader with
    | none => simp [hb]
    | some r => cases hc : r.Close <;> simp [hb, hc]
  · unfold parser.Close
    cases hb : p.bitReader with
    | none => simp [hb]
    | some r => cases hc : r.Close <;> simp [hb, hc]
  · intro r e hb hc
    simp [parser.Close, hb, hc]
  · intro e
    unfold parser.Close
    cases hb : p.bitReader with
    | none => simp [hb]
    | some r => cases hc : r.Close <;> simp [hb, hc]

theorem Close_keeps_latched_error_witness :
    (({ bitReader := some brokenReader, err := some "parse failed" } : parser String).Close
        (fun e => "failed to close BitReader: " ++ e)).1.error = some "parse failed" ∧
      (({ bitReader := some brokenReader, err := some "parse failed" } : parser String).Close
        (fun e => "failed to close BitReader: " ++ e)).2 =
        some "failed to close BitReader: file already closed" ∧
      (({ bitReader := some goodReader, err := some "parse failed" } : parser String).Close
        (fun e => "failed to close BitReader: " ++ e)).2 = none := by
  refine ⟨(Close_keeps_latched_error _ _).1, ?_, rfl⟩
  exact (Close_keeps_latched_error (fun e => "failed to close BitReader: " ++ e)
    ({ bitReader := some brokenReader, err := some "parse failed" } : parser String)).2.2.1
    brokenReader "file already closed" rfl rfl

/-! ## Message queue at construction -/

theorem Dispatcher.foldl_RegisterHandler_queues (hs : List Handler) (d : Dispatcher) :
    (hs.foldl (fun d h => (d.RegisterHandler h).1) d).queues = d.queues := by
  induction hs generalizing d with
  | nil => rfl
  | cons h t ih => rw [List.foldl_cons, ih]; rfl

theorem makeChan_zero (maxCap : ℕ) : makeChan maxCap 0 = some ⟨0⟩ := by
  simp [makeChan]

theorem makeChan_of_le (maxCap : ℕ) (buf : ℤ) (h0 : 0 ≤ buf) (h1 : buf ≤ (maxCap : ℤ)) :
    makeChan maxCap buf = some ⟨buf⟩ := by
  simp [makeChan, not_lt.mpr h0, not_lt.mpr h1]

/-- With `MsgQueueBufferSize == 0` the constructor does create a queue: claim
C12 fails for the zero-value configuration. -/
theorem NewParserWithConfig_zero_has_queue :
    ¬ ∀ config : ParserConfig, config.MsgQueueBufferSize = 0 →
      ∃ p : parser String,
        NewParserWithConfig runtimeMaxChanCap goodReader goodReader [] config = some p ∧
          p.msgQueue = none ∧ p.msgDispatcher.queues = [] := by
  intro h
  obtain ⟨p, hp, hq, _⟩ := h {} rfl
  simp [NewParserWithConfig, parser.initMsgQueue, makeChan_zero] at hp
  rw [← hp] at hq
  simp at hq

/-- Claim C12, amended: with `MsgQueueBufferSize == 0` the constructor creates
a queue of capacity 0 (an unbuffered channel) and adds it, and nothing else,
to the queues of the net-message dispatcher. -/
theorem NewParserWithConfig_zero_unbuffered {Err : Type} (maxCap : ℕ)
    (largeBitReader smallBitReader : BitReader Err) (netMessageHandlers : List Handler)
    (config : ParserConfig) (h0 : config.MsgQueueBufferSize = 0) :
    ∃ p : parser Err,
      NewParserWithConfig maxCap largeBitReader smallBitReader netMessageHandlers config =
          some p ∧
        p.msgQueue = some ⟨0⟩ ∧ p.msgDispatcher.queues = [⟨0⟩] := by
  simp [NewParserWithConfig, parser.initMsgQueue, makeChan_zero, h0, Dispatcher.AddQueues,
    Dispatcher.foldl_RegisterHandler_queues, NewDispatcherWithConfig]

theorem NewParserWithConfig_zero_unbuffered_witness :
    ∃ p : parser String,
      NewParserWithConfig runtimeMaxChanCap goodReader goodReader [] {} = some p ∧
        p.msgQueue = some ⟨0⟩ ∧ p.msgDispatcher.queues = [⟨0⟩] :=
  NewParserWithConfig_zero_unbuffered runtimeMaxChanCap goodReader goodReader [] {} rfl

/-- The positive half of claim C13 fails for sizes the runtime cannot
allocate: with `MsgQueueBufferSize = 2 ^ 62` the constructor panics in `make`
and returns no parser. -/
theorem NewParserWithConfig_huge_size_panics :
    ¬ ∀ config : ParserConfig, 0 < config.MsgQueueBufferSize →
      ∃ p : parser String,
        NewParserWithConfig runtimeMaxChanCap goodReader goodReader [] config = some p ∧
          p.msgQueue = some ⟨config.MsgQueueBufferSize⟩ ∧
          p.msgDispatcher.queues = [⟨config.MsgQueueBufferSize⟩] := by
  intro h
  obtain ⟨p, hp, _⟩ := h { MsgQueueBufferSize := 4611686018427387904 } (by decide)
  simp [NewParserWithConfig, parser.initMsgQueue, makeChan, runtimeMaxChanCap] at hp

/-- Claim C13, amended: with a negative `MsgQueueBufferSize`, as in
`DefaultParserConfig`, the parser is returned without a message queue and its
net-message dispatcher has none; with a positive one that the platform accepts
as a channel capacity the parser has a queue of exactly that capacity, and it
is the queue of the net-message dispatcher. -/
theorem NewParserWithConfig_queue_sizing {Err : Type} (maxCap : ℕ)
    (largeBitReader smallBitReader : BitReader Err) (netMessageHandlers : List Handler) :
    (∀ config : ParserConfig, config.MsgQueueBufferSize < 0 →
      ∃ p : parser Err,
        NewParserWithConfig maxCap largeBitReader smallBitReader netMessageHandlers config =
            some p ∧
          p.msgQueue = none ∧ p.msgDispatcher.queues = []) ∧
    (DefaultParserConfig.MsgQueueBufferSize = -1 ∧
      ∃ p : parser Err,
        NewParserWithConfig maxCap largeBitReader smallBitReader netMessageHandlers
            DefaultParserConfig = some p ∧
          p.msgQueue = none ∧ p.msgDispatcher.queues = []) ∧
    (∀ config : ParserConfig, 0 < config.MsgQueueBufferSize →
      config.MsgQueueBufferSize ≤ (maxCap : ℤ) →
      ∃ p : parser Err,
        NewParserWithConfig maxCap largeBitReader smallBitReader netMessageHandlers config =
            some p ∧
          p.msgQueue = some ⟨config.MsgQueueBufferSize⟩ ∧
          p.msgDispatcher.queues = [⟨config.MsgQueueBufferSize⟩]) := by
  have neg : ∀ config : ParserConfig, config.MsgQueueBufferSize < 0 →
      ∃ p : parser Err,
        NewParserWithConfig maxCap largeBitReader smallBitReader netMessageHandlers config =
            some p ∧
          p.msgQueue = none ∧ p.msgDispatcher.queues = [] := by
    intro config hneg
    simp [NewParserWithConfig, not_le.mpr hneg, Dispatcher.foldl_RegisterHandler_queues,
      NewDispatcherWithConfig]
  refine ⟨neg, ⟨rfl, neg DefaultParserConfig (by decide)⟩, ?_⟩
  intro config hpos hcap
  simp [NewParserWithConfig, parser.initMsgQueue, makeChan_of_le maxCap _ hpos.le hcap,
    hpos.le, Dispatcher.AddQueues, Dispatcher.foldl_RegisterHandler_queues,
    NewDispatcherWithConfig]

theorem NewParserWithConfig_queue_sizing_witness :
    (∃ p : parser String,
      NewParserWithConfig runtimeMaxChanCap goodReader goodReader [] DefaultParserConfig =
          some p ∧
        p.msgQueue = none ∧ p.msgDispatcher.queues = []) ∧
    (∃ p : parser String,
      NewParserWithConfig runtimeMaxChanCap goodReader goodReader []
          { MsgQueueBufferSize := 65536 } = some p ∧
        p.msgQueue = some ⟨65536⟩ ∧ p.msgDispatcher.queues = [⟨65536⟩]) :=
  ⟨(NewParserWithConfig_queue_sizing runtimeMaxChanCap goodReader goodReader []).1
      DefaultParserConfig (by decide),
    (NewParserWithConfig_queue_sizing runtimeMaxChanCap goodReader goodReader []).2.2
      { MsgQueueBufferSize := 65536 } (by decide) (by decide)⟩

/-! ## Event handlers -/

theorem le_foldr_max (l : List ℕ) (x : ℕ) (hx : x ∈ l) : x ≤ l.foldr max 0 := by
  induction l with
  | nil => cases hx
  | cons a t ih =>
    rw [List.foldr_cons]
    rcases List.mem_cons.mp hx with h | h
    · rw [h]; exact le_max_left _ _
    · exact le_trans (ih h) (le_max_right _ _)

theorem Dispatcher.lt_freshIdentifier (d : Dispatcher) (e : ℕ × Handler) (he : e ∈ d.handlers) :
    e.1 < d.freshIdentifier := by
  unfold Dispatcher.freshIdentifier
  have := le_foldr_max (d.handlers.map Prod.fst) e.1 (List.mem_map_of_mem _ he)
  omega

theorem Dispatcher.filter_ne_freshIdentifier (d : Dispatcher) :
    d.handlers.filter (fun e => !decide (e.1 = d.freshIdentifier)) = d.handlers := by
  rw [List.filter_eq_self]
  intro e he
  have := d.lt_freshIdentifier e he
  simp only [Bool.not_eq_true', decide_eq_false_iff_not]
  omega

theorem Dispatcher.Unregister_Register (d : Dispatcher) (h : Handler) :
    (d.RegisterHandler h).1.UnregisterHandler (d.RegisterHandler h).2 = d := by
  simp [Dispatcher.RegisterHandler, Dispatcher.UnregisterHandler, List.filter_append,
    d.filter_ne_freshIdentifier]

theorem Dispatcher.Unregister_first_of_two (d : Dispatcher) (h1 h2 : Handler) :
    ((d.RegisterHandler h1).1.RegisterHandler h2).1.UnregisterHandler (d.RegisterHandler h1).2 =
      { d with handlers := d.handlers ++ [((d.RegisterHandler h1).1.freshIdentifier, h2)] } := by
  have hlt : d.freshIdentifier < (d.RegisterHandler h1).1.freshIdentifier := by
    apply Dispatcher.lt_freshIdentifier _ (d.freshIdentifier, h1)
    simp [Dispatcher.RegisterHandler]
  simp only [Dispatcher.RegisterHandler] at hlt ⊢
  simp [Dispatcher.UnregisterHandler, List.filter_append, d.filter_ne_freshIdentifier, hlt.ne']

/-- Claim C14: registering a handler and unregistering it with the identifier
returned gives back the parser with the handler set it had; with `h1`
registered for kind `K` and `h2` for every kind, a fired `K` reaches both (after
the handlers registered before them), and once `h1` is unregistered it reaches
`h2` and no longer `h1`. -/
theorem Register_Unregister_round_trip {Err : Type} (p : parser Err) :
    (∀ h : Handler,
      (p.RegisterEventHandler h).1.UnregisterEventHandler (p.RegisterEventHandler h).2 = p) ∧
    (∀ (K t1 t2 : ℕ),
      ((p.RegisterEventHandler ⟨.kind K, t1⟩).1.RegisterEventHandler
          ⟨.any, t2⟩).1.eventDispatcher.Dispatch K =
        p.eventDispatcher.Dispatch K ++ [⟨.kind K, t1⟩, ⟨.any, t2⟩] ∧
      (((p.RegisterEventHandler ⟨.kind K, t1⟩).1.RegisterEventHandler
          ⟨.any, t2⟩).1.UnregisterEventHandler
            (p.RegisterEventHandler ⟨.kind K, t1⟩).2).eventDispatcher.Dispatch K =
        p.eventDispatcher.Dispatch K ++ [⟨.any, t2⟩]) := by
  constructor
  · intro h
    simp only [parser.RegisterEventHandler, parser.UnregisterEventHandler,
      Dispatcher.Unregister_Register]
  · intro K t1 t2
    constructor
    · simp [parser.RegisterEventHandler, Dispatcher.RegisterHandler, Dispatcher.Dispatch,
        List.filter_append]
    · simp only [parser.RegisterEventHandler, parser.UnregisterEventHandler,
        Dispatcher.Unregister_first_of_two]
      simp [Dispatcher.Dispatch, List.filter_append]

theorem Register_Unregister_round_trip_witness :
    ((freshParser.RegisterEventHandler ⟨.kind 7, 1⟩).1.RegisterEventHandler
        ⟨.any, 2⟩).1.eventDispatcher.Dispatch 7 = [⟨.kind 7, 1⟩, ⟨.any, 2⟩] ∧
      (((freshParser.RegisterEventHandler ⟨.kind 7, 1⟩).1.RegisterEventHandler
        ⟨.any, 2⟩).1.UnregisterEventHandler
          (freshParser.RegisterEventHandler ⟨.kind 7, 1⟩).2).eventDispatcher.Dispatch 7 =
        [⟨.any, 2⟩] :=
  (Register_Unregister_round_trip freshParser).2 7 1 2

/-! ## Participant snapshots -/

theorem MapStore.read_make (s : MapStore) (m : PlayerMap) :
    MapStore.read (MapStore.make s m).1 (MapStore.make s m).2 = m := by
  simp [MapStore.read, MapStore.make]

/-- Writing through the reference of a newly made map leaves every map that
existed before as it was. -/
theorem MapStore.read_write_make (s : MapStore) (c m : PlayerMap) (ref : ℕ)
    (h : ref < s.length) :
    MapStore.read (MapStore.write (MapStore.make s c).1 (MapStore.make s c).2 m) ref =
      MapStore.read s ref := by
  simp only [MapStore.read, MapStore.write, MapStore.make]
  rw [List.getElem?_set_ne (by omega), List.getElem?_append_left h]

/-- Claim C15: the map `ByUserID` or `ByEntityID` returns is a new map object;
whatever is done to it (for example deleting all its entries), the next call
returns the same players again, two entries for two connected players. -/
theorem snapshot_independent :
    (∀ (ptcp : participants) (s : MapStore) (m : PlayerMap),
      ptcp.playersByUserID < s.length → ptcp.playersByEntityID < s.length →
      (MapStore.read
          (ptcp.ByUserID (MapStore.write (ptcp.ByUserID s).1 (ptcp.ByUserID s).2 m)).1
          (ptcp.ByUserID (MapStore.write (ptcp.ByUserID s).1 (ptcp.ByUserID s).2 m)).2 =
        MapStore.read (ptcp.ByUserID s).1 (ptcp.ByUserID s).2) ∧
      (MapStore.read
          (ptcp.ByEntityID (MapStore.write (ptcp.ByEntityID s).1 (ptcp.ByEntityID s).2 m)).1
          (ptcp.ByEntityID (MapStore.write (ptcp.ByEntityID s).1 (ptcp.ByEntityID s).2 m)).2 =
        MapStore.read (ptcp.ByEntityID s).1 (ptcp.ByEntityID s).2)) ∧
    (MapStore.read (scenarioParticipants.ByUserID scenarioStore).1
        (scenarioParticipants.ByUserID scenarioStore).2).length = 2 ∧
    (MapStore.read
        (scenarioParticipants.ByUserID
          (MapStore.write (scenarioParticipants.ByUserID scenarioStore).1
            (scenarioParticipants.ByUserID scenarioStore).2 [])).1
        (scenarioParticipants.ByUserID
          (MapStore.write (scenarioParticipants.ByUserID scenarioStore).1
            (scenarioParticipants.ByUserID scenarioStore).2 [])).2).length = 2 := by
  refine ⟨?_, by decide, by decide⟩
  intro ptcp s m hu he
  constructor
  · unfold participants.ByUserID
    rw [MapStore.read_make, MapStore.read_make, MapStore.read_write_make s _ m _ hu]
  · unfold participants.ByEntityID
    rw [MapStore.read_make, MapStore.read_make, MapStore.read_write_make s _ m _ he]

theorem snapshot_independent_witness :
    MapStore.read
        (scenarioParticipants.ByUserID
          (MapStore.write (scenarioParticipants.ByUserID scenarioStore).1
            (scenarioParticipants.ByUserID scenarioStore).2 [])).1
        (scenarioParticipants.ByUserID
          (MapStore.write (scenarioParticipants.ByUserID scenarioStore).1
            (scenarioParticipants.ByUserID scenarioStore).2 [])).2 =
      MapStore.read (scenarioParticipants.ByUserID scenarioStore).1
        (scenarioParticipants.ByUserID scenarioStore).2 :=
  (snapshot_independent.1 scenarioParticipants scenarioStore [] (by decide) (by decide)).1

/-! ## Ordering of floating-point data -/

theorem Flt.le_trans {a b c : Flt} (h1 : Flt.le a b = true) (h2 : Flt.le b c = true) :
    Flt.le a c = true := by
  rcases a with (_ | _) | p | (_ | _) | _ <;> rcases b with (_ | _) | q | (_ | _) | _ <;>
    rcases c with (_ | _) | r | (_ | _) | _ <;>
    simp_all [Flt.le, Flt.val] <;> linarith

theorem Flt.le_false_of_gt {a b : Flt} (h : Flt.gt a b = true) : Flt.le a b = false := by
  rcases a with (_ | _) | p | (_ | _) | _ <;> rcases b with (_ | _) | q | (_ | _) | _ <;>
    simp_all [Flt.le, Flt.gt, Flt.val]

/-! ## Inverted boxes -/

/-- Claim C16: a box whose `min` exceeds its `max` in at least one coordinate
contains no point at all, its own `min` and `max` corners included. -/
theorem contains_false_of_inverted (b : boundingBoxInformation) (h : b.inverted) :
    (∀ p : Vector, b.contains p = false) ∧
      b.contains b.min = false ∧ b.contains b.max = false := by
  have key : ∀ p : Vector, b.contains p = false := by
    intro p
    by_contra hc
    rw [Bool.not_eq_false] at hc
    simp only [boundingBoxInformation.contains, Flt.ge_eq_le, Bool.and_eq_true] at hc
    obtain ⟨⟨⟨⟨⟨x1, x2⟩, y1⟩, y2⟩, z1⟩, z2⟩ := hc
    rcases h with h | h | h
    · have := Flt.le_false_of_gt h
      rw [Flt.le_trans x1 x2] at this
      exact Bool.noConfusion this
    · have := Flt.le_false_of_gt h
      rw [Flt.le_trans y1 y2] at this
      exact Bool.noConfusion this
    · have := Flt.le_false_of_gt h
      rw [Flt.le_trans z1 z2] at this
      exact Bool.noConfusion this
  exact ⟨key, key _, key _⟩

theorem contains_false_of_inverted_witness :
    invertedBox.inverted ∧
      (∀ p : Vector, invertedBox.contains p = false) ∧
      invertedBox.contains invertedBox.min = false ∧
      invertedBox.contains invertedBox.max = false :=
  ⟨Or.inl (by decide!), contains_false_of_inverted invertedBox (Or.inl (by decide!))⟩

end Demoinfocs
